import Mathlib

/-!
Shallow embedding of the LearnQuest backend gamification/progress subsystem
(Flask + SQLAlchemy, `src/app`).  Rows of the relational store are modelled as
Lean structures, tables as lists of rows, and each route handler / service
function as a pure Lean function from a state to a state and a response.

Modelling conventions:
* SQLAlchemy integer columns are `Nat` (they are non-negative in every code
  path the claims touch); `passing_score` is `Int` because a claim quantifies
  over zero / negative passing scores.
* `DateTime` columns are `Nat` seconds since an arbitrary epoch; the stream of
  `datetime.utcnow()` calls is passed in as an explicit `now` argument.
* Python float arithmetic (`progress_percentage`, the float division inside the
  quiz score) is modelled as exact rational / integer arithmetic: Python's
  `int(...)` truncation of a non-negative quotient is integer floor division.
* `db.session` mutations are modelled by returning the updated table lists;
  a fetched-and-mutated ORM row is modelled by rewriting the matching rows of
  its table.
-/

namespace LearnQuest

/-- A row of the `users` table (the columns the verified handlers read). -/
structure User where
  id : Nat
  username : String
  xp : Nat
  points : Nat
  streakDays : Nat
  lastActive : Option Nat
  role : String
  status : String
  deriving Repr, DecidableEq

/-- `User.query.get(user_id)`: first row with the given id. -/
def findUser (users : List User) (userId : Nat) : Option User :=
  users.find? (fun u => u.id == userId)

/-- Mutating the fetched user row and committing: every row with the given id
is rewritten by `f` (ids are unique in the real store, so exactly the fetched
row changes). -/
def updateUser (users : List User) (userId : Nat) (f : User → User) : List User :=
  users.map (fun u => if u.id == userId then f u else u)

/-- A row of the `questions` table. -/
structure Question where
  id : Nat
  correctAnswer : Int
  points : Nat
  deriving Repr, DecidableEq

/-- A row of the `quizzes` table, with its owned questions inlined. -/
structure Quiz where
  id : Nat
  passingScore : Int
  xpReward : Nat
  questions : List Question
  deriving Repr, DecidableEq

/-- One element of the submitted `answers` payload. -/
structure Answer where
  questionId : Nat
  answer : Int
  deriving Repr, DecidableEq

/-- One element of the `results` array built by `submit_quiz`. -/
structure QResult where
  questionId : Nat
  userAnswer : Int
  correctAnswer : Int
  isCorrect : Bool
  pointsEarned : Nat
  deriving Repr, DecidableEq

/-- The grading loop accumulator of `submit_quiz`
(`correct_count`, `total_points`, `max_points`, `results`). -/
structure GradeAcc where
  correctCount : Nat
  totalPoints : Nat
  maxPoints : Nat
  results : List QResult
  deriving Repr, DecidableEq

/-- `next((a for a in user_answers if a.question_id == question.id), None)`. -/
def findAnswer (answers : List Answer) (questionId : Nat) : Option Answer :=
  answers.find? (fun a => a.questionId == questionId)

/-- One iteration of the grading loop in `submit_quiz`. -/
def gradeStep (answers : List Answer) (acc : GradeAcc) (q : Question) : GradeAcc :=
  let acc := { acc with maxPoints := acc.maxPoints + q.points }
  match findAnswer answers q.id with
  | none => acc
  | some a =>
    let isCorrect : Bool := a.answer == q.correctAnswer
    { acc with
      correctCount := acc.correctCount + (if isCorrect then 1 else 0)
      totalPoints := acc.totalPoints + (if isCorrect then q.points else 0)
      results := acc.results ++
        [⟨q.id, a.answer, q.correctAnswer, isCorrect, if isCorrect then q.points else 0⟩] }

/-- The full grading loop of `submit_quiz`. -/
def gradeQuiz (questions : List Question) (answers : List Answer) : GradeAcc :=
  questions.foldl (gradeStep answers) ⟨0, 0, 0, []⟩

/-- The score line of `submit_quiz`:
`score = int((correct_count / len(questions) * 100)) if questions else 0`.
Over exact arithmetic, truncating the non-negative quotient is floor division. -/
def computeScore (correctCount numQuestions : Nat) : Nat :=
  if numQuestions = 0 then 0 else correctCount * 100 / numQuestions

/-- A row of the `quiz_attempts` table. -/
structure QuizAttempt where
  id : Nat
  userId : Nat
  quizId : Nat
  score : Nat
  correctAnswers : Nat
  totalQuestions : Nat
  passed : Bool
  xpEarned : Nat
  timeTaken : Nat
  completedAt : Nat
  answers : List Answer
  deriving Repr, DecidableEq

/-- The `data` payload returned by `submit_quiz`. -/
structure SubmitResponse where
  score : Nat
  passed : Bool
  correctAnswers : Nat
  totalQuestions : Nat
  xpEarned : Nat
  pointsEarned : Nat
  results : List QResult
  attemptId : Nat
  deriving Repr, DecidableEq

/-- The tables read and written by the quiz routes. -/
structure QuizState where
  users : List User
  quizzes : List Quiz
  attempts : List QuizAttempt
  deriving Repr, DecidableEq

/-- `Quiz.query.get(quiz_id)`. -/
def findQuiz (quizzes : List Quiz) (quizId : Nat) : Option Quiz :=
  quizzes.find? (fun q => q.id == quizId)

/-- The grading-and-persisting tail of `submit_quiz`, once the user and the
quiz have been fetched. -/
def submitQuizCore (st : QuizState) (userId quizId : Nat) (answers : List Answer)
    (timeTaken now : Nat) (quiz : Quiz) : QuizState × SubmitResponse :=
  let g := gradeQuiz quiz.questions answers
  let score := computeScore g.correctCount quiz.questions.length
  let passed : Bool := quiz.passingScore ≤ (score : Int)
  let xpEarned := if passed then quiz.xpReward + (if score == 100 then 25 else 0) else 0
  let users :=
    if passed then
      updateUser st.users userId
        (fun u => { u with xp := u.xp + xpEarned, points := u.points + g.totalPoints })
    else st.users
  let attempt : QuizAttempt :=
    ⟨st.attempts.length + 1, userId, quizId, score, g.correctCount,
      quiz.questions.length, passed, xpEarned, timeTaken, now, answers⟩
  ({ st with users := users, attempts := st.attempts ++ [attempt] },
    ⟨score, passed, g.correctCount, quiz.questions.length, xpEarned,
      g.totalPoints, g.results, attempt.id⟩)

/-- `POST /quizzes/<quiz_id>/submit` (`submit_quiz` in `routes/quizzes.py`).
Returns `none` when the user or the quiz is absent (404 in the source). -/
def submit_quiz (st : QuizState) (userId quizId : Nat) (answers : List Answer)
    (timeTaken now : Nat) : Option (QuizState × SubmitResponse) :=
  match findUser st.users userId with
  | none => none
  | some _ =>
    match findQuiz st.quizzes quizId with
    | none => none
    | some quiz => some (submitQuizCore st userId quizId answers timeTaken now quiz)

/-- The `{streak_days, message}` payload returned by `update_user_streak`. -/
structure StreakResult where
  streakDays : Nat
  message : String
  deriving Repr, DecidableEq

/-- `update_user_streak` in `services/streak_service.py`.  `none` models the
user-not-found return.  The source compares `hours_diff = seconds / 3600`
against 24 and 48; over exact arithmetic that is comparing seconds against
86400 and 172800.  A `now` earlier than `last_active` gives a negative
`hours_diff` in Python and lands in the first branch, exactly as truncated
`Nat` subtraction does here.  The branch that changes nothing commits nothing,
so the store is returned untouched there. -/
def update_user_streak (users : List User) (userId now : Nat) :
    Option (List User × StreakResult) :=
  match findUser users userId with
  | none => none
  | some u =>
    match u.lastActive with
    | none =>
      some (updateUser users userId (fun v => { v with lastActive := some now, streakDays := 1 }),
        ⟨1, "Streak started! Welcome to LearnQuest!"⟩)
    | some t =>
      if now - t < 86400 then
        some (users, ⟨u.streakDays, "Already counted for today. Keep up the momentum!"⟩)
      else if now - t < 172800 then
        some (updateUser users userId
            (fun v => { v with streakDays := v.streakDays + 1, lastActive := some now }),
          ⟨u.streakDays + 1, "Streak increased to " ++ toString (u.streakDays + 1) ++ " days!"⟩)
      else
        some (updateUser users userId
            (fun v => { v with streakDays := 1, lastActive := some now }),
          ⟨1, "Streak reset. Start a new streak today!"⟩)

/-- A row of the `badges` catalog table (the columns the verified code reads). -/
structure Badge where
  id : Nat
  name : String
  deriving Repr, DecidableEq

/-- A row of the `user_badges` join table. -/
structure UserBadge where
  userId : Nat
  badgeId : Nat
  earnedAt : Nat
  deriving Repr, DecidableEq

/-- One entry of the `milestones` table inside `award_streak_bonus`. -/
structure Milestone where
  days : Nat
  xp : Nat
  badgeName : String
  deriving Repr, DecidableEq

/-- The fixed milestone list of `award_streak_bonus`. -/
def milestones : List Milestone :=
  [⟨7, 50, "7 Day Streak"⟩, ⟨30, 200, "30 Day Streak"⟩, ⟨100, 500, "100 Day Streak"⟩]

/-- The tables read and written by the streak-milestone awarder.
`nextBadgeId` models the id the store would assign to the next inserted badge
row (`db.session.flush()` materialises it in the source). -/
structure GamState where
  users : List User
  badges : List Badge
  userBadges : List UserBadge
  nextBadgeId : Nat
  deriving Repr, DecidableEq

/-- One element of the bonus list returned by `award_streak_bonus`. -/
structure Bonus where
  days : Nat
  xpAwarded : Nat
  badgeId : Nat
  deriving Repr, DecidableEq

/-- `Badge.query.filter_by(name=...).first()`. -/
def findBadgeByName (badges : List Badge) (n : String) : Option Badge :=
  badges.find? (fun b => b.name == n)

/-- `UserBadge.query.filter_by(user_id=..., badge_id=...).first()` viewed as an
existence check. -/
def hasUserBadge (userBadges : List UserBadge) (userId badgeId : Nat) : Bool :=
  userBadges.any (fun ub => ub.userId == userId && ub.badgeId == badgeId)

/-- One iteration of the milestone loop in `award_streak_bonus`: create the
catalog badge if missing, then award it (join row + XP) unless already held. -/
def award_milestone (userId streakDays now : Nat) (acc : GamState × List Bonus)
    (m : Milestone) : GamState × List Bonus :=
  if m.days ≤ streakDays then
    let st := acc.1
    let created :=
      match findBadgeByName st.badges m.badgeName with
      | some b => (st, b)
      | none =>
        ({ st with
            badges := st.badges ++ [(⟨st.nextBadgeId, m.badgeName⟩ : Badge)]
            nextBadgeId := st.nextBadgeId + 1 },
          (⟨st.nextBadgeId, m.badgeName⟩ : Badge))
    let st1 := created.1
    let badge := created.2
    if hasUserBadge st1.userBadges userId badge.id then (st1, acc.2)
    else
      let st2 := { st1 with userBadges := st1.userBadges ++ [⟨userId, badge.id, now⟩] }
      match findUser st2.users userId with
      | some _ =>
        ({ st2 with users := updateUser st2.users userId (fun v => { v with xp := v.xp + m.xp }) },
          acc.2 ++ [⟨m.days, m.xp, badge.id⟩])
      | none => (st2, acc.2)
  else acc

/-- `award_streak_bonus` in `services/streak_service.py`. -/
def award_streak_bonus (st : GamState) (userId streakDays now : Nat) :
    GamState × List Bonus :=
  milestones.foldl (award_milestone userId streakDays now) (st, [])

/-- Does the user hold the badge carrying a milestone name?  (Resolves the
name through the catalog exactly as the awarding code does.) -/
def holdsBadgeNamed (st : GamState) (userId : Nat) (n : String) : Bool :=
  match findBadgeByName st.badges n with
  | some b => hasUserBadge st.userBadges userId b.id
  | none => false

/-- Store invariants the relational engine guarantees and the awarder relies
on: catalog ids are pairwise distinct and below the next fresh id, and every
join row references a catalog badge. -/
def WFGam (st : GamState) : Prop :=
  (st.badges.map (·.id)).Nodup ∧
  (∀ b ∈ st.badges, b.id < st.nextBadgeId) ∧
  (∀ ub ∈ st.userBadges, ∃ b ∈ st.badges, b.id = ub.badgeId)

/-- One entry of the list returned by `get_leaderboard`. -/
structure LBEntry where
  rank : Nat
  userId : Nat
  username : String
  xp : Nat
  points : Nat
  deriving Repr, DecidableEq

/-- The `last_active >= start_date` filter of the leaderboard service: a SQL
comparison against `NULL` is not satisfied, so users without `last_active`
are excluded from every windowed period. -/
def activeSince (startDate : Nat) (u : User) : Bool :=
  match u.lastActive with
  | some t => startDate ≤ t
  | none => false

/-- The period filter of `get_leaderboard` (1 / 7 / 30 days, `all_time` = no
filter), with `timedelta` widths in seconds. -/
def periodFilter (period : String) (now : Nat) (u : User) : Bool :=
  if period == "daily" then activeSince (now - 86400) u
  else if period == "weekly" then activeSince (now - 7 * 86400) u
  else if period == "monthly" then activeSince (now - 30 * 86400) u
  else true

/-- `ORDER BY xp DESC`: a stable sort keyed on descending `xp`. -/
def orderByXpDesc (users : List User) : List User :=
  List.insertionSort (fun a b => b.xp ≤ a.xp) users

instance : IsTotal User (fun a b => b.xp ≤ a.xp) :=
  ⟨fun a b => le_total b.xp a.xp⟩

instance : IsTrans User (fun a b => b.xp ≤ a.xp) :=
  ⟨fun _ _ _ hab hbc => le_trans hbc hab⟩

/-- `get_leaderboard` in `services/leaderboard_service.py`.  `none` models the
`LeaderboardError` raised on an invalid period.  The service clamps `limit`
to `[1, 1000]` (a `limit` below 1, including the negatives a caller could
pass, becomes 1). -/
def get_leaderboard (users : List User) (period : String) (limit : Nat) (now : Nat) :
    Option (List LBEntry) :=
  if period == "daily" || period == "weekly" || period == "monthly" || period == "all_time" then
    let limit := if limit < 1 then 1 else if 1000 < limit then 1000 else limit
    let top := (orderByXpDesc (users.filter (periodFilter period now))).take limit
    some (top.enum.map (fun p => ⟨p.1 + 1, p.2.id, p.2.username, p.2.xp, p.2.points⟩))
  else none

/-- A row of the `learning_paths` table (columns the verified code reads). -/
structure LearningPath where
  id : Nat
  creatorId : Nat
  xpReward : Nat
  deriving Repr, DecidableEq

/-- A row of the `modules` table (columns the verified code reads). -/
structure Module where
  id : Nat
  learningPathId : Nat
  order : Nat
  xpReward : Nat
  deriving Repr, DecidableEq

/-- A row of the `resources` table (columns the verified code reads). -/
structure Resource where
  id : Nat
  moduleId : Nat
  deriving Repr, DecidableEq

/-- A row of the `user_progress` table. -/
structure UserProgress where
  userId : Nat
  learningPathId : Nat
  currentModuleId : Option Nat
  completedModules : List Nat
  completedResources : List Nat
  progressPercentage : ℚ
  xpEarned : Nat
  timeSpent : Nat
  status : String
  lastAccessed : Option Nat
  completedAt : Option Nat
  deriving Repr, DecidableEq

/-- A row of the `resource_completions` table. -/
structure ResourceCompletion where
  userId : Nat
  resourceId : Nat
  completedAt : Nat
  timeSpent : Nat
  xpEarned : Nat
  deriving Repr, DecidableEq

/-- The tables read and written by the progress routes. -/
structure ProgState where
  users : List User
  paths : List LearningPath
  modules : List Module
  resources : List Resource
  progresses : List UserProgress
  completions : List ResourceCompletion
  deriving Repr, DecidableEq

/-- `UserProgress.query.filter_by(user_id=..., learning_path_id=...).first()`. -/
def findProgress (progresses : List UserProgress) (userId pathId : Nat) :
    Option UserProgress :=
  progresses.find? (fun p => p.userId == userId && p.learningPathId == pathId)

/-- Rewriting the fetched enrollment row after mutation. -/
def updateProgress (progresses : List UserProgress) (userId pathId : Nat)
    (p : UserProgress) : List UserProgress :=
  progresses.map (fun q => if q.userId == userId && q.learningPathId == pathId then p else q)

/-- `UserProgress.add_completed_module` / `add_completed_resource` in
`models/progress.py`: append unless already present. -/
def addCompleted (ids : List Nat) (x : Nat) : List Nat :=
  if x ∈ ids then ids else ids ++ [x]

/-- `Module.query.filter(same path, order > module.order).order_by(Module.order).first()`:
the earliest module (stable sort by `order`) among those strictly after the
completed one. -/
def nextModule (modules : List Module) (m : Module) : Option Module :=
  (List.insertionSort (fun a b => a.order ≤ b.order)
    (modules.filter
      (fun m2 => m2.learningPathId == m.learningPathId && m.order < m2.order))).head?

/-- The response of `complete_module` (status code + the awarded XP). -/
inductive ModuleResp where
  | notFound
  | notEnrolled
  | alreadyCompleted
  | completed (xpEarned : Nat)
  deriving Repr, DecidableEq

/-- The mutating tail of `complete_module`, once the module and the
enrollment have been fetched and the already-completed no-op ruled out. -/
def completeModuleApply (st : ProgState) (userId moduleId now : Nat)
    (m : Module) (p : UserProgress) : ProgState × ModuleResp :=
  let xp := m.xpReward
  match nextModule st.modules m with
  | some nm =>
    let p2 := { p with
      completedModules := addCompleted p.completedModules moduleId
      lastAccessed := some now
      xpEarned := p.xpEarned + xp
      currentModuleId := some nm.id }
    ({ st with
        progresses := updateProgress st.progresses userId m.learningPathId p2
        users := updateUser st.users userId (fun u => { u with xp := u.xp + xp }) },
      .completed xp)
  | none =>
    let pathBonus :=
      match st.paths.find? (fun lp => lp.id == m.learningPathId) with
      | some lp => lp.xpReward
      | none => 100
    let p2 := { p with
      completedModules := addCompleted p.completedModules moduleId
      lastAccessed := some now
      xpEarned := p.xpEarned + xp
      status := "completed"
      completedAt := some now
      progressPercentage := 100 }
    ({ st with
        progresses := updateProgress st.progresses userId m.learningPathId p2
        users := updateUser st.users userId
          (fun u => { u with xp := u.xp + xp + pathBonus }) },
      .completed (xp + pathBonus))

/-- `POST /progress/complete-module/<module_id>` (`complete_module` in
`routes/progress.py`). -/
def complete_module (st : ProgState) (userId moduleId now : Nat) :
    ProgState × ModuleResp :=
  match st.modules.find? (fun m => m.id == moduleId) with
  | none => (st, .notFound)
  | some m =>
    match findProgress st.progresses userId m.learningPathId with
    | none => (st, .notEnrolled)
    | some p =>
      if moduleId ∈ p.completedModules then (st, .alreadyCompleted)
      else completeModuleApply st userId moduleId now m p

/-- The response of `complete_resource` (the completion record it returns). -/
inductive ResourceResp where
  | notFound
  | alreadyCompleted (c : ResourceCompletion)
  | completed (c : ResourceCompletion) (xpEarned : Nat)
  deriving Repr, DecidableEq

/-- `ResourceCompletion.query.filter_by(user_id=..., resource_id=...).first()`. -/
def findCompletion (completions : List ResourceCompletion) (userId resourceId : Nat) :
    Option ResourceCompletion :=
  completions.find? (fun c => c.userId == userId && c.resourceId == resourceId)

/-- The enrollment update inside `complete_resource`: add the resource to the
completed set, stamp `last_accessed`, accumulate XP and minutes, and recompute
the percentage from the path resource totals. -/
def progressAfterResource (st : ProgState) (userId resourceId timeSpent now xp : Nat) :
    List UserProgress :=
  match st.resources.find? (fun r => r.id == resourceId) with
  | none => st.progresses
  | some r =>
    match st.modules.find? (fun m => m.id == r.moduleId) with
    | none => st.progresses
    | some m =>
      match findProgress st.progresses userId m.learningPathId with
      | none => st.progresses
      | some p =>
        let p2 := { p with
          completedResources := addCompleted p.completedResources resourceId
          lastAccessed := some now
          xpEarned := p.xpEarned + xp
          timeSpent := p.timeSpent + timeSpent / 60 }
        let p3 :=
          match st.paths.find? (fun lp => lp.id == m.learningPathId) with
          | none => p2
          | some _ =>
            let total := (((st.modules.filter
                (fun m2 => m2.learningPathId == m.learningPathId)).map
                (fun m2 => (st.resources.filter (fun r2 => r2.moduleId == m2.id)).length)).sum)
            if 0 < total then
              { p2 with progressPercentage :=
                  ((p2.completedResources.length : ℚ) / (total : ℚ)) * 100 }
            else p2
        updateProgress st.progresses userId m.learningPathId p3

/-- `POST /progress/complete-resource/<resource_id>` (`complete_resource` in
`routes/progress.py`). -/
def complete_resource (st : ProgState) (userId resourceId timeSpent now : Nat) :
    ProgState × ResourceResp :=
  match st.resources.find? (fun r => r.id == resourceId) with
  | none => (st, .notFound)
  | some _ =>
    match findCompletion st.completions userId resourceId with
    | some c => (st, .alreadyCompleted c)
    | none =>
      let xp := 10
      let c : ResourceCompletion := ⟨userId, resourceId, now, timeSpent, xp⟩
      ({ st with
          users := updateUser st.users userId (fun u => { u with xp := u.xp + xp })
          progresses := progressAfterResource st userId resourceId timeSpent now xp
          completions := st.completions ++ [c] },
        .completed c xp)

/-- A row of the `comments` table (only the author matters to the evaluator). -/
structure Comment where
  userId : Nat
  deriving Repr, DecidableEq

/-- The tables read and written by `check_and_award_badges`. -/
structure BState where
  users : List User
  badges : List Badge
  userBadges : List UserBadge
  progresses : List UserProgress
  attempts : List QuizAttempt
  comments : List Comment
  paths : List LearningPath
  deriving Repr, DecidableEq

/-- The aggregate counters `check_and_award_badges` computes before evaluating
its rule table. -/
def totalCompletedResources (progresses : List UserProgress) (userId : Nat) : Nat :=
  ((progresses.filter (fun p => p.userId == userId)).map
    (fun p => p.completedResources.length)).sum

/-- `UserProgress.query.filter_by(user_id=..., status='completed').count()`. -/
def completedPathCount (progresses : List UserProgress) (userId : Nat) : Nat :=
  (progresses.filter (fun p => p.userId == userId && p.status == "completed")).length

/-- `QuizAttempt.query.filter_by(user_id=...).filter(score == 100).count()`. -/
def perfectQuizCount (attempts : List QuizAttempt) (userId : Nat) : Nat :=
  (attempts.filter (fun a => a.userId == userId && a.score == 100)).length

/-- `Comment.query.filter_by(user_id=...).count()`. -/
def commentCount (comments : List Comment) (userId : Nat) : Nat :=
  (comments.filter (fun c => c.userId == userId)).length

/-- `LearningPath.query.filter_by(creator_id=...).count()`. -/
def createdPathCount (paths : List LearningPath) (userId : Nat) : Nat :=
  (paths.filter (fun lp => lp.creatorId == userId)).length

/-- The fixed rule table of `check_and_award_badges`, in evaluation order:
each rule is the badge name it awards paired with whether its counter
condition holds for the user in the given state. -/
def badgeRules (st : BState) (u : User) : List (String × Bool) :=
  [("First Steps", 1 ≤ totalCompletedResources st.progresses u.id),
   ("Path Finder", 1 ≤ completedPathCount st.progresses u.id),
   ("Week Warrior", 7 ≤ u.streakDays),
   ("Streak Legend", 30 ≤ u.streakDays),
   ("Quiz Master", 5 ≤ perfectQuizCount st.attempts u.id),
   ("Social Butterfly", 10 ≤ commentCount st.comments u.id),
   ("Code Ninja", 50 ≤ totalCompletedResources st.progresses u.id),
   ("Mentor", (u.role == "contributor" || u.role == "admin") &&
      1 ≤ createdPathCount st.paths u.id)]

/-- The in-memory accumulator of the `try_award` helper: the set of badge ids
already held (seeded from `UserBadge` rows, grown as it awards), the join rows
pending insertion, and the `awarded` list. -/
structure AwardAcc where
  existing : List Nat
  newUserBadges : List UserBadge
  awarded : List Badge
  deriving Repr, DecidableEq

/-- `try_award(badge_name)` in `check_and_award_badges`: award the named badge
only when a catalog row with that exact name exists and its id is not already
held; a missing catalog row silently awards nothing. -/
def try_award (badges : List Badge) (userId now : Nat) (acc : AwardAcc)
    (rule : String × Bool) : AwardAcc :=
  if rule.2 then
    match findBadgeByName badges rule.1 with
    | some b =>
      if b.id ∈ acc.existing then acc
      else ⟨acc.existing ++ [b.id], acc.newUserBadges ++ [⟨userId, b.id, now⟩],
        acc.awarded ++ [b]⟩
    | none => acc
  else acc

/-- The `data` payload returned by `check_and_award_badges`. -/
structure BadgeCheckResult where
  newBadges : List Badge
  totalBadges : Nat
  xpBonus : Nat
  deriving Repr, DecidableEq

/-- The body of `check_and_award_badges` once the user has been fetched:
seed the held set from `UserBadge` rows (a Python set, hence deduplicated),
run the rule table through `try_award`, then apply the batched XP / points
bonus at the end when anything was awarded. -/
def checkAwardCore (st : BState) (userId now : Nat) (u : User) :
    BState × BadgeCheckResult :=
  let existing0 := ((st.userBadges.filter (fun ub => ub.userId == userId)).map
    (fun ub => ub.badgeId)).dedup
  let acc := (badgeRules st u).foldl (try_award st.badges userId now) ⟨existing0, [], []⟩
  let n := acc.awarded.length
  let users :=
    if acc.awarded.isEmpty then st.users
    else updateUser st.users userId
      (fun v => { v with xp := v.xp + n * 50, points := v.points + n * 25 })
  ({ st with users := users, userBadges := st.userBadges ++ acc.newUserBadges },
    ⟨acc.awarded, acc.existing.length, if acc.awarded.isEmpty then 0 else n * 50⟩)

/-- `POST /gamification/badges/check` (`check_and_award_badges` in
`routes/gamification.py`).  `none` models the 404 on a missing user. -/
def check_and_award_badges (st : BState) (userId now : Nat) :
    Option (BState × BadgeCheckResult) :=
  match findUser st.users userId with
  | none => none
  | some u => some (checkAwardCore st userId now u)

/-- The badge names of the fixed rule table, in evaluation order. -/
def ruleNames : List String :=
  ["First Steps", "Path Finder", "Week Warrior", "Streak Legend",
   "Quiz Master", "Social Butterfly", "Code Ninja", "Mentor"]

/-- The error / success envelope of the admin user-management handlers. -/
structure AdminResp where
  statusCode : Nat
  errorCode : Option String
  deriving Repr, DecidableEq

/-- `PUT /admin/users/<user_id>/suspend` (`suspend_user` in `routes/admin.py`).
`adminId` is the caller identity from the bearer token (the `admin_required`
decorator has already passed).  The self-target guard runs before the lookup. -/
def suspend_user (users : List User) (adminId userId : Nat) (shouldSuspend : Bool) :
    List User × AdminResp :=
  if userId == adminId then (users, ⟨400, some "SELF_SUSPEND"⟩)
  else
    match findUser users userId with
    | none => (users, ⟨404, some "USER_NOT_FOUND"⟩)
    | some _ =>
      (updateUser users userId
        (fun u => { u with status := if shouldSuspend then "suspended" else "active" }),
        ⟨200, none⟩)

/-- `DELETE /admin/users/<user_id>` (`delete_user` in `routes/admin.py`). -/
def delete_user (users : List User) (adminId userId : Nat) :
    List User × AdminResp :=
  if userId == adminId then (users, ⟨400, some "SELF_DELETE"⟩)
  else
    match findUser users userId with
    | none => (users, ⟨404, some "USER_NOT_FOUND"⟩)
    | some _ => (users.filter (fun u => !(u.id == userId)), ⟨200, none⟩)

/-- A learner row used by the concrete instances below. -/
def mkUser (id xp : Nat) : User :=
  ⟨id, "user", xp, 0, 0, none, "learner", "active"⟩

/-- Quiz store with one user and one three-question quiz (pass mark 70). -/
def quizCexState : QuizState :=
  { users := [mkUser 1 0]
    quizzes := [⟨1, 70, 50, [⟨1, 0, 10⟩, ⟨2, 0, 10⟩, ⟨3, 0, 10⟩]⟩]
    attempts := [] }

/-- A submission answering two of the three questions correctly. -/
def quizCexAnswers : List Answer := [⟨1, 0⟩, ⟨2, 0⟩, ⟨3, 1⟩]

/-- Quiz store with one user and a quiz that has no questions and a
non-positive pass mark. -/
def emptyQuizState : QuizState :=
  { users := [mkUser 1 7]
    quizzes := [⟨1, 0, 40, []⟩]
    attempts := [] }

/-- Progress store: one user enrolled in a two-module path, nothing completed. -/
def enrollC5 : UserProgress :=
  ⟨1, 1, some 1, [], [], 0, 0, 0, "in_progress", none, none⟩

/-- Progress store with one user, one path of two ordered modules, one
resource, and the enrollment `enrollC5`. -/
def progStateC5 : ProgState :=
  { users := [mkUser 1 0]
    paths := [⟨1, 1, 100⟩]
    modules := [⟨1, 1, 0, 50⟩, ⟨2, 1, 1, 60⟩]
    resources := [⟨1, 1⟩]
    progresses := [enrollC5]
    completions := [] }

/-- Milestone-awarder store: one fresh user, empty badge catalog. -/
def gamStateC4 : GamState :=
  { users := [mkUser 1 0]
    badges := []
    userBadges := []
    nextBadgeId := 1 }

/-- Badge-evaluator store: a user with a 7-day streak, the Week Warrior badge
in the catalog, nothing held yet. -/
def bStateC8 : BState :=
  { users := [{ mkUser 1 0 with streakDays := 7 }]
    badges := [⟨1, "Week Warrior"⟩]
    userBadges := []
    progresses := []
    attempts := []
    comments := []
    paths := [] }

/-- Badge-evaluator store with the same user but an empty badge catalog. -/
def bStateC9 : BState := { bStateC8 with badges := [] }

/-- A user three days into a streak, last active at time 0. -/
def streakU0 : User :=
  { mkUser 1 0 with streakDays := 3, lastActive := some 0 }

/-- Streak store holding just `streakU0`. -/
def streakUsers0 : List User := [streakU0]

/-!
Helper lemmas about the store primitives.
-/

theorem findUser_updateUser (users : List User) (userId : Nat) (f : User → User)
    (hf : ∀ u, (f u).id = u.id) :
    findUser (updateUser users userId f) userId = (findUser users userId).map f := by
  unfold findUser updateUser
  induction users with
  | nil => rfl
  | cons u us ih =>
    by_cases h : u.id = userId
    · simp [List.find?_cons, h, hf u]
    · have hg : (if u.id == userId then f u else u) = u := by simp [h]
      have h2 : (u.id == userId) = false := by simp [h]
      simp only [List.map_cons, List.find?_cons]
      rw [hg]
      simp only [h2]
      exact ih

/-!
C3 — admin self-target guard.
-/

/-- C3: for every admin caller, a suspend request or a delete request whose
target user id equals the caller's own id returns 400 (`SELF_SUSPEND` /
`SELF_DELETE`) and leaves the user table — in particular the caller's
account — unchanged. -/
theorem admin_self_target_rejected (users : List User) (adminId : Nat)
    (shouldSuspend : Bool) :
    suspend_user users adminId adminId shouldSuspend =
      (users, ⟨400, some "SELF_SUSPEND"⟩) ∧
    delete_user users adminId adminId = (users, ⟨400, some "SELF_DELETE"⟩) := by
  exact ⟨by simp [suspend_user], by simp [delete_user]⟩

/-!
C2 — quiz score arithmetic.
-/

theorem computeScore_eq_floor (c t : Nat) :
    computeScore c t = ⌊(c : ℚ) / (t : ℚ) * 100⌋₊ := by
  rcases Nat.eq_zero_or_pos t with h | h
  · subst h; simp [computeScore]
  · rw [computeScore, if_neg h.ne',
      show ((c : ℚ) / (t : ℚ) * 100) = ((c * 100 : ℕ) : ℚ) / (t : ℚ) by push_cast; ring,
      Nat.floor_div_nat, Nat.floor_natCast]

/-- C2 (counterexample): the claim says the score is `round(correct / total ×
100)`; on a three-question quiz with two correct answers the handler returns
66 while rounding to nearest would give 67 — the code truncates. -/
theorem submit_quiz_score_not_rounded :
    (submit_quiz quizCexState 1 1 quizCexAnswers 0 0).map (fun p => p.2.score) =
      some 66 ∧
    round ((2 : ℚ) / 3 * 100) = 67 ∧ (66 : ℤ) ≠ 67 := by
  refine ⟨by decide, by norm_num [round_eq], by decide⟩

/-- C2 (amended): `submit_quiz` computes the integer percentage by truncation,
`score = ⌊correctCount / totalQuestions × 100⌋` (0 when the quiz has no
questions, with no division error), and `passed` holds exactly when
`score ≥ quiz.passing_score`. -/
theorem submit_quiz_score_spec (st : QuizState) (userId quizId : Nat)
    (answers : List Answer) (timeTaken now : Nat) (quiz : Quiz)
    (st2 : QuizState) (resp : SubmitResponse)
    (hq : findQuiz st.quizzes quizId = some quiz)
    (h : submit_quiz st userId quizId answers timeTaken now = some (st2, resp)) :
    resp.score = ⌊(resp.correctAnswers : ℚ) / (resp.totalQuestions : ℚ) * 100⌋₊ ∧
    (resp.totalQuestions = 0 → resp.score = 0) ∧
    (resp.passed = true ↔ quiz.passingScore ≤ (resp.score : Int)) := by
  cases hu : findUser st.users userId with
  | none => simp [submit_quiz, hu] at h
  | some u =>
    simp only [submit_quiz, hu, hq, Option.some.injEq] at h
    obtain rfl : resp = (submitQuizCore st userId quizId answers timeTaken now quiz).2 :=
      (congrArg Prod.snd h).symm
    refine ⟨computeScore_eq_floor _ _, fun h0 => ?_, ?_⟩
    · have h0' : quiz.questions.length = 0 := h0
      show computeScore (gradeQuiz quiz.questions answers).correctCount
        quiz.questions.length = 0
      rw [h0']
      rfl
    · show (decide (quiz.passingScore ≤
        ((submitQuizCore st userId quizId answers timeTaken now quiz).2.score : Int)) = true) ↔ _
      rw [decide_eq_true_eq]

/-- C2 (witness): the amended statement evaluated on the two-of-three
submission: the returned score 66 is the floor of 200/3. -/
theorem submit_quiz_score_spec_witness :
    ∃ st2 resp, submit_quiz quizCexState 1 1 quizCexAnswers 0 0 = some (st2, resp) ∧
      resp.score = ⌊(resp.correctAnswers : ℚ) / (resp.totalQuestions : ℚ) * 100⌋₊ ∧
      resp.score = 66 := by
  cases hopt : submit_quiz quizCexState 1 1 quizCexAnswers 0 0 with
  | none => exact absurd hopt (by decide)
  | some pair =>
    obtain ⟨st2, resp⟩ := pair
    have hspec := submit_quiz_score_spec quizCexState 1 1 quizCexAnswers 0 0
      ⟨1, 70, 50, [⟨1, 0, 10⟩, ⟨2, 0, 10⟩, ⟨3, 0, 10⟩]⟩ st2 resp (by rfl) hopt
    have h66 : resp.score = 66 := by
      have h1 : (submit_quiz quizCexState 1 1 quizCexAnswers 0 0).map
          (fun p => p.2.score) = some 66 := by decide
      rw [hopt] at h1
      simpa using h1
    exact ⟨st2, resp, rfl, hspec.1, h66⟩

/-!
C10 — zero-question quiz submission.
-/

/-- C10: on a quiz with zero questions `submit_quiz` yields score 0 and
`passed = (0 ≥ passing_score)`; an attempt row is always appended; and when
the pass mark is zero or negative the submission passes, the user is credited
exactly the quiz `xp_reward` (no +25 perfect bonus) and their points are
unchanged. -/
theorem submit_quiz_zero_questions (st : QuizState) (userId quizId : Nat)
    (answers : List Answer) (timeTaken now : Nat) (u : User) (quiz : Quiz)
    (hu : findUser st.users userId = some u)
    (hq : findQuiz st.quizzes quizId = some quiz)
    (hempty : quiz.questions = []) :
    ∃ st2 resp, submit_quiz st userId quizId answers timeTaken now = some (st2, resp) ∧
      resp.score = 0 ∧
      resp.passed = decide (quiz.passingScore ≤ 0) ∧
      st2.attempts = st.attempts ++
        [⟨st.attempts.length + 1, userId, quizId, 0, 0, 0, resp.passed, resp.xpEarned,
          timeTaken, now, answers⟩] ∧
      (quiz.passingScore ≤ 0 →
        resp.xpEarned = quiz.xpReward ∧
        findUser st2.users userId =
          some { u with xp := u.xp + quiz.xpReward, points := u.points }) := by
  obtain ⟨qid, ps, xr, qs⟩ := quiz
  cases hempty
  have heq : submit_quiz st userId quizId answers timeTaken now =
      some (submitQuizCore st userId quizId answers timeTaken now ⟨qid, ps, xr, []⟩) := by
    simp only [submit_quiz, hu, hq]
  refine ⟨_, _, heq, rfl, rfl, rfl, fun hpass => ?_⟩
  have hp : (decide (ps ≤ ((computeScore (gradeQuiz ([] : List Question) answers).correctCount
      (List.length ([] : List Question))) : Int))) = true := by
    simpa using hpass
  constructor
  · show (if (decide (ps ≤ _) : Bool) then xr + (if _ then 25 else 0) else 0) = xr
    rw [hp]
    rfl
  · show findUser (if (decide (ps ≤ _) : Bool) then updateUser st.users userId _
      else st.users) userId = _
    rw [hp, if_pos rfl, findUser_updateUser _ _ _ (by intro v; rfl), hu]
    rfl

/-- C10 (witness): the zero-question quiz with pass mark 0 — the empty
submission passes and the user is credited the full 40 XP. -/
theorem submit_quiz_zero_questions_witness :
    ∃ st2 resp, submit_quiz emptyQuizState 1 1 [] 0 0 = some (st2, resp) ∧
      resp.score = 0 ∧ resp.passed = decide ((0 : Int) ≤ 0) ∧
      (resp.xpEarned = 40 ∧
        findUser st2.users 1 = some { mkUser 1 7 with xp := 47, points := 0 }) := by
  obtain ⟨st2, resp, heq, hscore, hpassed, -, himp⟩ :=
    submit_quiz_zero_questions emptyQuizState 1 1 [] 0 0 (mkUser 1 7) ⟨1, 0, 40, []⟩
      (by rfl) (by rfl) rfl
  obtain ⟨hxp, hfind⟩ := himp le_rfl
  exact ⟨st2, resp, heq, hscore, hpassed, hxp, by simpa using hfind⟩

/-!
C1 — streak state transitions.
-/

/-- C1: for every user present in the store, `update_user_streak` leaves
`streak_days` unchanged and does not touch the store when fewer than 24 hours
(86400 s) have elapsed since `last_active`; increments `streak_days` by
exactly 1 and stamps `last_active = now` when 24 ≤ hours < 48; resets
`streak_days` to exactly 1 and stamps `last_active = now` when hours ≥ 48;
and initializes the streak to 1 stamping `last_active = now` when
`last_active` is null. -/
theorem update_user_streak_cases (users : List User) (userId now : Nat) (u : User)
    (hu : findUser users userId = some u) :
    ∃ users2 r, update_user_streak users userId now = some (users2, r) ∧
      (u.lastActive = none →
        r.streakDays = 1 ∧
        findUser users2 userId = some { u with lastActive := some now, streakDays := 1 }) ∧
      (∀ t, u.lastActive = some t → t ≤ now →
        ((now - t < 86400 → users2 = users ∧ r.streakDays = u.streakDays) ∧
         (86400 ≤ now - t → now - t < 172800 →
           r.streakDays = u.streakDays + 1 ∧
           findUser users2 userId =
             some { u with streakDays := u.streakDays + 1, lastActive := some now }) ∧
         (172800 ≤ now - t →
           r.streakDays = 1 ∧
           findUser users2 userId =
             some { u with streakDays := 1, lastActive := some now }))) := by
  cases hla : u.lastActive with
  | none =>
    refine ⟨_, _, by simp only [update_user_streak, hu, hla]; rfl, fun _ => ⟨rfl, ?_⟩,
      fun t ht _ => Option.noConfusion ht⟩
    rw [findUser_updateUser _ _ _ (by intro v; rfl), hu]
    rfl
  | some t0 =>
    by_cases h1 : now - t0 < 86400
    · refine ⟨_, _, by simp only [update_user_streak, hu, hla, if_pos h1]; rfl,
        fun hnone => Option.noConfusion hnone, ?_⟩
      intro t ht _
      obtain rfl : t0 = t := Option.some.inj ht
      exact ⟨fun _ => ⟨rfl, rfl⟩,
        fun hge _ => absurd h1 (not_lt.mpr hge),
        fun hge => absurd h1 (not_lt.mpr (le_trans (by norm_num) hge))⟩
    · by_cases h2 : now - t0 < 172800
      · refine ⟨_, _,
          by simp only [update_user_streak, hu, hla, if_neg h1, if_pos h2]; rfl,
          fun hnone => Option.noConfusion hnone, ?_⟩
        intro t ht _
        obtain rfl : t0 = t := Option.some.inj ht
        refine ⟨fun hlt => absurd hlt h1, fun _ _ => ⟨rfl, ?_⟩,
          fun hge => absurd h2 (not_lt.mpr hge)⟩
        rw [findUser_updateUser _ _ _ (by intro v; rfl), hu]
        rfl
      · refine ⟨_, _,
          by simp only [update_user_streak, hu, hla, if_neg h1, if_neg h2]; rfl,
          fun hnone => Option.noConfusion hnone, ?_⟩
        intro t ht _
        obtain rfl : t0 = t := Option.some.inj ht
        refine ⟨fun hlt => absurd hlt h1, fun _ hlt => absurd hlt h2,
          fun _ => ⟨rfl, ?_⟩⟩
        rw [findUser_updateUser _ _ _ (by intro v; rfl), hu]
        rfl

/-- C1 (witness): a user three days into a streak, last active 100000 s
(about 27.8 h) ago, gets incremented to 4 days. -/
theorem update_user_streak_witness :
    streakU0.lastActive = some 0 ∧ (0 : Nat) ≤ 100000 ∧
    86400 ≤ 100000 - 0 ∧ 100000 - 0 < 172800 ∧
    ∃ users2 r, update_user_streak streakUsers0 1 100000 = some (users2, r) ∧
      r.streakDays = streakU0.streakDays + 1 := by
  refine ⟨rfl, by norm_num, by norm_num, by norm_num, ?_⟩
  obtain ⟨users2, r, heq, -, hsome⟩ :=
    update_user_streak_cases streakUsers0 1 100000 streakU0 (by rfl)
  exact ⟨users2, r, heq,
    (((hsome 0 rfl (by norm_num)).2.1) (by norm_num) (by norm_num)).1⟩

/-!
C6 — resource completion idempotency.
-/

/-- C6: `complete_resource` is idempotent per (user, resource): after a first
successful completion, a second call for the same pair returns the very
completion record the first call created and leaves the whole store — user
XP, enrollment completed set, `xp_earned`, `progress_percentage` — unchanged. -/
theorem complete_resource_idempotent (st : ProgState)
    (userId resourceId t1 t2 now1 now2 : Nat) (r : Resource)
    (hr : st.resources.find? (fun x => x.id == resourceId) = some r)
    (hnone : findCompletion st.completions userId resourceId = none) :
    ∃ st2 c, complete_resource st userId resourceId t1 now1 = (st2, .completed c 10) ∧
      complete_resource st2 userId resourceId t2 now2 = (st2, .alreadyCompleted c) := by
  refine ⟨_, _, by simp only [complete_resource, hr, hnone]; rfl, ?_⟩
  have h2 : findCompletion (st.completions ++ [⟨userId, resourceId, now1, t1, 10⟩])
      userId resourceId = some ⟨userId, resourceId, now1, t1, 10⟩ := by
    unfold findCompletion at hnone ⊢
    rw [List.find?_append, hnone]
    simp
  simp only [complete_resource, hr, h2]

/-!
C7 — leaderboard ordering.
-/

/-- C7: for every period and limit, `get_leaderboard` returns entries sorted
by `xp` in descending order, each entry carrying `rank` equal to its 1-based
position in the returned list. -/
theorem get_leaderboard_sorted (users : List User) (period : String)
    (limit now : Nat) (entries : List LBEntry)
    (h : get_leaderboard users period limit now = some entries) :
    (∀ i j, (hi : i < entries.length) → (hj : j < entries.length) → i ≤ j →
      (entries.get ⟨j, hj⟩).xp ≤ (entries.get ⟨i, hi⟩).xp) ∧
    (∀ i, (hi : i < entries.length) → (entries.get ⟨i, hi⟩).rank = i + 1) := by
  unfold get_leaderboard at h
  split at h
  case isFalse => cases h
  case isTrue hv =>
    obtain rfl : entries = _ := (Option.some.inj h).symm
    set lim := if limit < 1 then 1 else if 1000 < limit then 1000 else limit with hlim
    set sorted := orderByXpDesc (users.filter (periodFilter period now)) with hsorted
    set top := sorted.take lim with htop
    have hsl : List.Pairwise (fun a b : User => b.xp ≤ a.xp) sorted :=
      List.sorted_insertionSort (fun a b : User => b.xp ≤ a.xp) _
    have htl : List.Pairwise (fun a b : User => b.xp ≤ a.xp) top :=
      List.Pairwise.sublist (List.take_sublist _ _) hsl
    have hlen : (top.enum.map
        (fun p => (⟨p.1 + 1, p.2.id, p.2.username, p.2.xp, p.2.points⟩ : LBEntry))).length =
        top.length := by
      rw [List.length_map, List.enum_length]
    constructor
    · intro i j hi hj hij
      have hi' : i < top.length := by rw [← hlen]; exact hi
      have hj' : j < top.length := by rw [← hlen]; exact hj
      have hgi : (List.get _ ⟨i, hi⟩ : LBEntry).xp = (top.get ⟨i, hi'⟩).xp := by
        simp [List.get_eq_getElem, List.getElem_map, List.getElem_enum]
      have hgj : (List.get _ ⟨j, hj⟩ : LBEntry).xp = (top.get ⟨j, hj'⟩).xp := by
        simp [List.get_eq_getElem, List.getElem_map, List.getElem_enum]
      rw [hgi, hgj]
      rcases lt_or_eq_of_le hij with hlt | hEq
      · exact (List.pairwise_iff_getElem.mp htl) i j hi' hj' hlt
      · subst hEq
        rfl
    · intro i hi
      simp [List.get_eq_getElem, List.getElem_map, List.getElem_enum]

/-- Two users for the leaderboard witness. -/
def lbUsers0 : List User := [mkUser 1 5, mkUser 2 9]

/-- C7 (witness): on the two-user store, the all-time leaderboard is sorted
descending with ranks 1 and 2. -/
theorem get_leaderboard_sorted_witness :
    ∃ entries, get_leaderboard lbUsers0 "all_time" 10 0 = some entries ∧
      ∃ (h0 : 0 < entries.length) (h1 : 1 < entries.length),
        (entries.get ⟨1, h1⟩).xp ≤ (entries.get ⟨0, h0⟩).xp ∧
        (entries.get ⟨0, h0⟩).rank = 1 := by
  cases hopt : get_leaderboard lbUsers0 "all_time" 10 0 with
  | none => exact absurd hopt (by decide)
  | some entries =>
    have hspec := get_leaderboard_sorted lbUsers0 "all_time" 10 0 entries hopt
    have hlen2 : entries.length = 2 := by
      have h1 : (get_leaderboard lbUsers0 "all_time" 10 0).map
          (fun l => l.length) = some 2 := by decide
      rw [hopt] at h1
      simpa using h1
    refine ⟨entries, rfl, by rw [hlen2]; norm_num, by rw [hlen2]; norm_num, ?_, ?_⟩
    · exact hspec.1 0 1 (by rw [hlen2]; norm_num) (by rw [hlen2]; norm_num) (by norm_num)
    · exact hspec.2 0 (by rw [hlen2]; norm_num)

/-- C6 (witness): the idempotence statement evaluated on the one-resource
store with no prior completions. -/
theorem complete_resource_idempotent_witness :
    ∃ st2 c, complete_resource progStateC5 1 1 30 5 = (st2, .completed c 10) ∧
      complete_resource st2 1 1 7 9 = (st2, .alreadyCompleted c) :=
  complete_resource_idempotent progStateC5 1 1 30 7 5 9 ⟨1, 1⟩ (by rfl) (by rfl)

/-!
C5 — module completion and path-completion transition.
-/

theorem findProgress_updateProgress (ps : List UserProgress) (userId pathId : Nat)
    (p p2 : UserProgress) (hp : findProgress ps userId pathId = some p)
    (hid : p2.userId = p.userId) (hpath : p2.learningPathId = p.learningPathId) :
    findProgress (updateProgress ps userId pathId p2) userId pathId = some p2 := by
  unfold findProgress at hp
  unfold findProgress updateProgress
  induction ps with
  | nil => cases hp
  | cons q qs ih =>
    rw [List.find?_cons] at hp
    by_cases hq : (q.userId == userId && q.learningPathId == pathId) = true
    · simp only [hq] at hp
      obtain rfl : q = p := Option.some.inj hp
      have h2 : (p2.userId == userId && p2.learningPathId == pathId) = true := by
        rw [hid, hpath]; exact hq
      simp only [List.map_cons, if_pos hq, List.find?_cons, h2]
    · have hqf : (q.userId == userId && q.learningPathId == pathId) = false := by
        revert hq; cases (q.userId == userId && q.learningPathId == pathId) <;> simp
      have hg : (if q.userId == userId && q.learningPathId == pathId then p2 else q) = q := by
        rw [if_neg hq]
      simp only [hqf] at hp
      simp only [List.map_cons, List.find?_cons]
      rw [hg]
      simp only [hqf]
      exact ih hp

theorem addCompleted_of_not_mem (ids : List Nat) (x : Nat) (h : x ∉ ids) :
    addCompleted ids x = ids ++ [x] := by
  unfold addCompleted
  rw [if_neg h]

/-- C5: for an enrolled user completing a not-yet-completed module, when no
module of strictly greater order exists in the path the enrollment becomes
`completed` with `completed_at` stamped and `progress_percentage = 100` and
the user is credited the module XP plus the path `xp_reward`; when such a
module exists, the earliest of them becomes `current_module_id`, the status
field is untouched, and only the module XP is credited; in either case a
repeated call is an `alreadyCompleted` no-op, so the award happens exactly
once. -/
theorem complete_module_spec (st : ProgState) (userId moduleId now : Nat)
    (m : Module) (p : UserProgress) (lp : LearningPath) (u : User)
    (hm : st.modules.find? (fun x => x.id == moduleId) = some m)
    (hp : findProgress st.progresses userId m.learningPathId = some p)
    (hnotdone : moduleId ∉ p.completedModules)
    (hlp : st.paths.find? (fun x => x.id == m.learningPathId) = some lp)
    (hu : findUser st.users userId = some u) :
    ∃ st2 resp, complete_module st userId moduleId now = (st2, resp) ∧
      (∀ nm, nextModule st.modules m = some nm →
        nm.learningPathId = m.learningPathId ∧ m.order < nm.order ∧
        resp = .completed m.xpReward ∧
        findProgress st2.progresses userId m.learningPathId = some
          { p with completedModules := p.completedModules ++ [moduleId]
                   lastAccessed := some now
                   xpEarned := p.xpEarned + m.xpReward
                   currentModuleId := some nm.id } ∧
        findUser st2.users userId = some { u with xp := u.xp + m.xpReward }) ∧
      (st.modules.filter
          (fun m2 => m2.learningPathId == m.learningPathId && m.order < m2.order) ≠ [] →
        ∃ nm, nextModule st.modules m = some nm) ∧
      (st.modules.filter
          (fun m2 => m2.learningPathId == m.learningPathId && m.order < m2.order) = [] →
        resp = .completed (m.xpReward + lp.xpReward) ∧
        findProgress st2.progresses userId m.learningPathId = some
          { p with completedModules := p.completedModules ++ [moduleId]
                   lastAccessed := some now
                   xpEarned := p.xpEarned + m.xpReward
                   status := "completed"
                   completedAt := some now
                   progressPercentage := 100 } ∧
        findUser st2.users userId = some { u with xp := u.xp + m.xpReward + lp.xpReward }) ∧
      (∀ now2, complete_module st2 userId moduleId now2 = (st2, .alreadyCompleted)) := by
  have heq : complete_module st userId moduleId now =
      completeModuleApply st userId moduleId now m p := by
    simp only [complete_module, hm, hp]
    rw [if_neg hnotdone]
  have hmem2 : moduleId ∈ addCompleted p.completedModules moduleId := by
    rw [addCompleted_of_not_mem _ _ hnotdone]
    simp
  refine ⟨_, _, heq, ?_, ?_, ?_, ?_⟩
  · intro nm hnm
    have hmem : nm ∈ st.modules.filter
        (fun m2 => m2.learningPathId == m.learningPathId && m.order < m2.order) := by
      have hmemS : nm ∈ List.insertionSort (fun a b : Module => a.order ≤ b.order)
          (st.modules.filter
            (fun m2 => m2.learningPathId == m.learningPathId && m.order < m2.order)) :=
        List.mem_of_mem_head? hnm
      exact (List.perm_insertionSort _ _).mem_iff.mp hmemS
    have hpred := List.of_mem_filter hmem
    have hpl : nm.learningPathId = m.learningPathId := by
      have := (Bool.and_eq_true _ _).mp hpred
      simpa using this.1
    have hor : m.order < nm.order := by
      have := (Bool.and_eq_true _ _).mp hpred
      simpa using this.2
    refine ⟨hpl, hor, by simp only [completeModuleApply, hnm], ?_, ?_⟩
    · simp only [completeModuleApply, hnm]
      rw [findProgress_updateProgress st.progresses userId m.learningPathId p _ hp
        (by rfl) (by rfl)]
      rw [addCompleted_of_not_mem _ _ hnotdone]
    · simp only [completeModuleApply, hnm]
      rw [findUser_updateUser _ _ _ (by intro v; rfl), hu]
      rfl
  · intro hne
    cases hnext : nextModule st.modules m with
    | some nm0 => exact ⟨nm0, rfl⟩
    | none =>
      exfalso
      apply hne
      have hlen : (List.insertionSort (fun a b : Module => a.order ≤ b.order)
          (st.modules.filter
            (fun m2 => m2.learningPathId == m.learningPathId && m.order < m2.order))).length =
          (st.modules.filter
            (fun m2 => m2.learningPathId == m.learningPathId && m.order < m2.order)).length :=
        List.length_insertionSort _ _
      unfold nextModule at hnext
      rcases hse : List.insertionSort (fun a b : Module => a.order ≤ b.order)
          (st.modules.filter
            (fun m2 => m2.learningPathId == m.learningPathId && m.order < m2.order)) with
        _ | ⟨a, l⟩
      · rw [hse] at hlen
        exact List.length_eq_zero.mp hlen.symm
      · rw [hse] at hnext
        cases hnext
  · intro hfe
    have hnext : nextModule st.modules m = none := by
      unfold nextModule
      rw [hfe]
      rfl
    refine ⟨by simp only [completeModuleApply, hnext, hlp], ?_, ?_⟩
    · simp only [completeModuleApply, hnext]
      rw [findProgress_updateProgress st.progresses userId m.learningPathId p _ hp
        (by rfl) (by rfl)]
      rw [addCompleted_of_not_mem _ _ hnotdone]
    · simp only [completeModuleApply, hnext, hlp]
      rw [findUser_updateUser _ _ _ (by intro v; rfl), hu]
      rfl
  · intro now2
    cases hnext : nextModule st.modules m with
    | some nm0 =>
      have hp2 := findProgress_updateProgress st.progresses userId m.learningPathId p
        { p with completedModules := addCompleted p.completedModules moduleId
                 lastAccessed := some now
                 xpEarned := p.xpEarned + m.xpReward
                 currentModuleId := some nm0.id } hp rfl rfl
      simp only [completeModuleApply, hnext]
      simp only [complete_module, hm, hp2]
      rw [if_pos hmem2]
    | none =>
      have hp2 := findProgress_updateProgress st.progresses userId m.learningPathId p
        { p with completedModules := addCompleted p.completedModules moduleId
                 lastAccessed := some now
                 xpEarned := p.xpEarned + m.xpReward
                 status := "completed"
                 completedAt := some now
                 progressPercentage := 100 } hp rfl rfl
      simp only [completeModuleApply, hnext]
      simp only [complete_module, hm, hp2]
      rw [if_pos hmem2]

/-- C5 (witness): completing the last (second) module of the two-module path
marks the enrollment completed and pays 60 + 100 XP; a repeat call no-ops. -/
theorem complete_module_spec_witness :
    ∃ st2, complete_module progStateC5 1 2 11 = (st2, .completed 160) ∧
      complete_module st2 1 2 12 = (st2, .alreadyCompleted) := by
  obtain ⟨st2, resp, heq, hB, hex, hA, hrep⟩ :=
    complete_module_spec progStateC5 1 2 11 ⟨2, 1, 1, 60⟩ enrollC5 ⟨1, 1, 100⟩ (mkUser 1 0)
      (by rfl) (by rfl) (by simp [enrollC5]) (by rfl) (by rfl)
  obtain ⟨hresp, -, -⟩ := hA (by rfl)
  exact ⟨st2, by rw [heq, hresp]; rfl, hrep 12⟩

/-!
C8 / C9 — badge evaluator: fold lemmas for `try_award`.
-/

theorem try_award_eq_of_skip (badges : List Badge) (userId now : Nat) (acc : AwardAcc)
    (rule : String × Bool)
    (h : rule.2 = true → ∀ b, findBadgeByName badges rule.1 = some b → b.id ∈ acc.existing) :
    try_award badges userId now acc rule = acc := by
  unfold try_award
  by_cases hr : rule.2 = true
  · rw [if_pos hr]
    cases hfind : findBadgeByName badges rule.1 with
    | none => rfl
    | some b =>
      show (if b.id ∈ acc.existing then acc else
        (⟨acc.existing ++ [b.id], acc.newUserBadges ++ [⟨userId, b.id, now⟩],
          acc.awarded ++ [b]⟩ : AwardAcc)) = acc
      rw [if_pos (h hr b hfind)]
  · rw [if_neg hr]

theorem try_award_mem_existing (badges : List Badge) (userId now : Nat) (acc : AwardAcc)
    (rule : String × Bool) (b : Badge) (hr : rule.2 = true)
    (hfind : findBadgeByName badges rule.1 = some b) :
    b.id ∈ (try_award badges userId now acc rule).existing := by
  unfold try_award
  rw [if_pos hr, hfind]
  show b.id ∈ (if b.id ∈ acc.existing then acc else
    (⟨acc.existing ++ [b.id], acc.newUserBadges ++ [⟨userId, b.id, now⟩],
      acc.awarded ++ [b]⟩ : AwardAcc)).existing
  by_cases hb : b.id ∈ acc.existing
  · rw [if_pos hb]; exact hb
  · rw [if_neg hb]
    exact List.mem_append_right _ (by simp)

theorem try_award_characterize (badges : List Badge) (userId now : Nat) (acc : AwardAcc)
    (rule : String × Bool) :
    try_award badges userId now acc rule = acc ∨
    ∃ b, b ∈ badges ∧ try_award badges userId now acc rule =
      ⟨acc.existing ++ [b.id], acc.newUserBadges ++ [⟨userId, b.id, now⟩],
        acc.awarded ++ [b]⟩ := by
  unfold try_award
  by_cases hr : rule.2 = true
  · rw [if_pos hr]
    cases hfind : findBadgeByName badges rule.1 with
    | none => exact Or.inl rfl
    | some b =>
      show (if b.id ∈ acc.existing then acc else
        (⟨acc.existing ++ [b.id], acc.newUserBadges ++ [⟨userId, b.id, now⟩],
          acc.awarded ++ [b]⟩ : AwardAcc)) = acc ∨ _
      by_cases hb : b.id ∈ acc.existing
      · exact Or.inl (if_pos hb)
      · exact Or.inr ⟨b, List.mem_of_find?_eq_some hfind, if_neg hb⟩
  · rw [if_neg hr]
    exact Or.inl rfl

theorem tryAwardFold_skip (badges : List Badge) (userId now : Nat)
    (rules : List (String × Bool)) (acc : AwardAcc)
    (h : ∀ r ∈ rules, r.2 = true →
      ∀ b, findBadgeByName badges r.1 = some b → b.id ∈ acc.existing) :
    rules.foldl (try_award badges userId now) acc = acc := by
  induction rules with
  | nil => rfl
  | cons r rs ih =>
    rw [List.foldl_cons,
      try_award_eq_of_skip badges userId now acc r (h r (List.mem_cons_self _ _))]
    exact ih (fun r2 hr2 => h r2 (List.mem_cons_of_mem _ hr2))

theorem tryAwardFold_existing_mono (badges : List Badge) (userId now : Nat)
    (rules : List (String × Bool)) (acc : AwardAcc) (x : Nat) (hx : x ∈ acc.existing) :
    x ∈ (rules.foldl (try_award badges userId now) acc).existing := by
  induction rules generalizing acc with
  | nil => exact hx
  | cons r rs ih =>
    rw [List.foldl_cons]
    rcases try_award_characterize badges userId now acc r with hstep | ⟨b, -, hstep⟩
    · rw [hstep]; exact ih acc hx
    · rw [hstep]
      exact ih _ (List.mem_append_left _ hx)

theorem tryAwardFold_award_mem (badges : List Badge) (userId now : Nat)
    (rules : List (String × Bool)) (acc : AwardAcc) (r : String × Bool)
    (hmem : r ∈ rules) (hr : r.2 = true) (b : Badge)
    (hfind : findBadgeByName badges r.1 = some b) :
    b.id ∈ (rules.foldl (try_award badges userId now) acc).existing := by
  induction rules generalizing acc with
  | nil => cases hmem
  | cons r0 rs ih =>
    rw [List.foldl_cons]
    rcases List.mem_cons.mp hmem with hEq | htail
    · subst hEq
      exact tryAwardFold_existing_mono badges userId now rs _ b.id
        (try_award_mem_existing badges userId now acc r b hr hfind)
    · exact ih _ htail

theorem tryAwardFold_newUB_mono (badges : List Badge) (userId now : Nat)
    (rules : List (String × Bool)) (acc : AwardAcc) (ub : UserBadge)
    (hub : ub ∈ acc.newUserBadges) :
    ub ∈ (rules.foldl (try_award badges userId now) acc).newUserBadges := by
  induction rules generalizing acc with
  | nil => exact hub
  | cons r rs ih =>
    rw [List.foldl_cons]
    rcases try_award_characterize badges userId now acc r with hstep | ⟨b, -, hstep⟩
    · rw [hstep]; exact ih acc hub
    · rw [hstep]
      exact ih _ (List.mem_append_left _ hub)

theorem tryAwardFold_existing_source (badges : List Badge) (userId now : Nat)
    (rules : List (String × Bool)) (acc : AwardAcc) (x : Nat)
    (hx : x ∈ (rules.foldl (try_award badges userId now) acc).existing) :
    x ∈ acc.existing ∨
      x ∈ ((rules.foldl (try_award badges userId now) acc).newUserBadges.map
        (fun ub => ub.badgeId)) := by
  induction rules generalizing acc with
  | nil => exact Or.inl hx
  | cons r rs ih =>
    rw [List.foldl_cons] at hx ⊢
    rcases try_award_characterize badges userId now acc r with hstep | ⟨b, -, hstep⟩
    · rw [hstep] at hx ⊢
      exact ih acc hx
    · rw [hstep] at hx ⊢
      rcases ih _ hx with hsrc | hnew
      · rcases List.mem_append.mp hsrc with hold | hb
        · exact Or.inl hold
        · refine Or.inr ?_
          have hubmem : (⟨userId, b.id, now⟩ : UserBadge) ∈
              (rs.foldl (try_award badges userId now)
                ⟨acc.existing ++ [b.id], acc.newUserBadges ++ [⟨userId, b.id, now⟩],
                  acc.awarded ++ [b]⟩).newUserBadges :=
            tryAwardFold_newUB_mono badges userId now rs _ _
              (List.mem_append_right _ (by simp))
          have hxid : x = b.id := by simpa using hb
          rw [hxid]
          exact List.mem_map.mpr ⟨⟨userId, b.id, now⟩, hubmem, rfl⟩
      · exact Or.inr hnew

theorem tryAwardFold_newUB_userId (badges : List Badge) (userId now : Nat)
    (rules : List (String × Bool)) (acc : AwardAcc) (ub : UserBadge)
    (hub : ub ∈ (rules.foldl (try_award badges userId now) acc).newUserBadges) :
    ub ∈ acc.newUserBadges ∨ ub.userId = userId := by
  induction rules generalizing acc with
  | nil => exact Or.inl hub
  | cons r rs ih =>
    rw [List.foldl_cons] at hub
    rcases try_award_characterize badges userId now acc r with hstep | ⟨b, -, hstep⟩
    · rw [hstep] at hub
      exact ih acc hub
    · rw [hstep] at hub
      rcases ih _ hub with hsrc | hid
      · rcases List.mem_append.mp hsrc with hold | hnew
        · exact Or.inl hold
        · right
          have : ub = ⟨userId, b.id, now⟩ := by simpa using hnew
          rw [this]
      · exact Or.inr hid

theorem tryAwardFold_awarded_source (badges : List Badge) (userId now : Nat)
    (rules : List (String × Bool)) (acc : AwardAcc) (bb : Badge)
    (h : bb ∈ (rules.foldl (try_award badges userId now) acc).awarded) :
    bb ∈ acc.awarded ∨ bb ∈ badges := by
  induction rules generalizing acc with
  | nil => exact Or.inl h
  | cons r rs ih =>
    rw [List.foldl_cons] at h
    rcases try_award_characterize badges userId now acc r with hstep | ⟨b, hbmem, hstep⟩
    · rw [hstep] at h
      exact ih acc h
    · rw [hstep] at h
      rcases ih _ h with hsrc | hb
      · rcases List.mem_append.mp hsrc with hold | hone
        · exact Or.inl hold
        · right
          have : bb = b := by simpa using hone
          rw [this]
          exact hbmem
      · exact Or.inr hb

theorem checkAwardCore_of_skip (st : BState) (userId now : Nat) (u : User)
    (h : ∀ r ∈ badgeRules st u, r.2 = true →
      ∀ b, findBadgeByName st.badges r.1 = some b →
        b.id ∈ ((st.userBadges.filter (fun ub => ub.userId == userId)).map
          (fun ub => ub.badgeId)).dedup) :
    checkAwardCore st userId now u =
      (st, ⟨[], (((st.userBadges.filter (fun ub => ub.userId == userId)).map
        (fun ub => ub.badgeId)).dedup).length, 0⟩) := by
  simp only [checkAwardCore]
  rw [tryAwardFold_skip st.badges userId now (badgeRules st u) _ h]
  simp

theorem badgeRules_congr (st st2 : BState) (u u2 : User)
    (hprog : st2.progresses = st.progresses) (hatt : st2.attempts = st.attempts)
    (hcom : st2.comments = st.comments) (hpaths : st2.paths = st.paths)
    (hid : u2.id = u.id) (hstreak : u2.streakDays = u.streakDays)
    (hrole : u2.role = u.role) :
    badgeRules st2 u2 = badgeRules st u := by
  unfold badgeRules
  rw [hprog, hatt, hcom, hpaths, hid, hstreak, hrole]

/-- C8: `check_and_award_badges` credits `50 × (newly awarded)` XP and
`25 × (newly awarded)` points once at the end, reports that XP bonus, and is
idempotent: a second invocation with the underlying counters unchanged awards
zero badges and leaves the store exactly as it was. -/
theorem check_and_award_badges_idempotent (st : BState) (userId now now2 : Nat)
    (u : User) (hu : findUser st.users userId = some u) :
    ∃ st2 r, check_and_award_badges st userId now = some (st2, r) ∧
      r.xpBonus = r.newBadges.length * 50 ∧
      findUser st2.users userId =
        some { u with xp := u.xp + r.newBadges.length * 50,
                      points := u.points + r.newBadges.length * 25 } ∧
      ∃ r2, check_and_award_badges st2 userId now2 = some (st2, r2) ∧
        r2.newBadges = [] := by
  obtain ⟨acc, hacc⟩ : ∃ acc, (badgeRules st u).foldl (try_award st.badges userId now)
      ⟨((st.userBadges.filter (fun ub => ub.userId == userId)).map
        (fun ub => ub.badgeId)).dedup, [], []⟩ = acc := ⟨_, rfl⟩
  have hcore : checkAwardCore st userId now u =
      ({ st with
          users := if acc.awarded.isEmpty then st.users
            else updateUser st.users userId
              (fun v => { v with xp := v.xp + acc.awarded.length * 50,
                                 points := v.points + acc.awarded.length * 25 })
          userBadges := st.userBadges ++ acc.newUserBadges },
        ⟨acc.awarded, acc.existing.length,
          if acc.awarded.isEmpty then 0 else acc.awarded.length * 50⟩) := by
    simp only [checkAwardCore]
    rw [hacc]
  have heq : check_and_award_badges st userId now =
      some (({ st with
          users := if acc.awarded.isEmpty then st.users
            else updateUser st.users userId
              (fun v => { v with xp := v.xp + acc.awarded.length * 50,
                                 points := v.points + acc.awarded.length * 25 })
          userBadges := st.userBadges ++ acc.newUserBadges } : BState),
        (⟨acc.awarded, acc.existing.length,
          if acc.awarded.isEmpty then 0 else acc.awarded.length * 50⟩ : BadgeCheckResult)) := by
    simp only [check_and_award_badges, hu]
    rw [hcore]
  have hfind2 : findUser (if acc.awarded.isEmpty then st.users
      else updateUser st.users userId
        (fun v => { v with xp := v.xp + acc.awarded.length * 50,
                           points := v.points + acc.awarded.length * 25 })) userId =
      some { u with xp := u.xp + acc.awarded.length * 50,
                    points := u.points + acc.awarded.length * 25 } := by
    rcases hA : acc.awarded with _ | ⟨b0, bs⟩
    · exact hu
    · show findUser (updateUser st.users userId
        (fun v => { v with xp := v.xp + (b0 :: bs).length * 50,
                           points := v.points + (b0 :: bs).length * 25 })) userId =
        some { u with xp := u.xp + (b0 :: bs).length * 50,
                      points := u.points + (b0 :: bs).length * 25 }
      rw [findUser_updateUser _ _ _ (by intro v; rfl), hu]
      rfl
  refine ⟨_, _, heq, ?_, hfind2, ?_⟩
  · rcases hA : acc.awarded with _ | ⟨b0, bs⟩
    · rfl
    · rfl
  · have hcond2 : ∀ r ∈ badgeRules ({ st with
        users := if acc.awarded.isEmpty then st.users
          else updateUser st.users userId
            (fun v => { v with xp := v.xp + acc.awarded.length * 50,
                               points := v.points + acc.awarded.length * 25 })
        userBadges := st.userBadges ++ acc.newUserBadges } : BState)
        { u with xp := u.xp + acc.awarded.length * 50,
                 points := u.points + acc.awarded.length * 25 },
        r.2 = true → ∀ b, findBadgeByName st.badges r.1 = some b →
          b.id ∈ (((st.userBadges ++ acc.newUserBadges).filter
            (fun ub => ub.userId == userId)).map (fun ub => ub.badgeId)).dedup := by
      intro r hr htrue b hfind
      rw [badgeRules_congr st ({ st with
          users := if acc.awarded.isEmpty then st.users
            else updateUser st.users userId
              (fun v => { v with xp := v.xp + acc.awarded.length * 50,
                                 points := v.points + acc.awarded.length * 25 })
          userBadges := st.userBadges ++ acc.newUserBadges } : BState) u
        { u with xp := u.xp + acc.awarded.length * 50,
                 points := u.points + acc.awarded.length * 25 }
        rfl rfl rfl rfl rfl rfl rfl] at hr
      have hmem1 : b.id ∈ acc.existing := by
        rw [← hacc]
        exact tryAwardFold_award_mem st.badges userId now (badgeRules st u) _ r hr htrue
          b hfind
      have hsplit : b.id ∈ (⟨((st.userBadges.filter (fun ub => ub.userId == userId)).map
          (fun ub => ub.badgeId)).dedup, [], []⟩ : AwardAcc).existing ∨
          b.id ∈ (acc.newUserBadges.map (fun ub => ub.badgeId)) := by
        rw [← hacc] at hmem1 ⊢
        exact tryAwardFold_existing_source st.badges userId now (badgeRules st u) _
          b.id hmem1
      rw [List.mem_dedup, List.filter_append, List.map_append]
      rcases hsplit with hsrc | hnew
      · exact List.mem_append_left _ (List.mem_dedup.mp hsrc)
      · obtain ⟨ub, hub, hubid⟩ := List.mem_map.mp hnew
        have huid : ub.userId = userId := by
          have hub' : ub ∈ ((badgeRules st u).foldl (try_award st.badges userId now)
              ⟨((st.userBadges.filter (fun ub => ub.userId == userId)).map
                (fun ub => ub.badgeId)).dedup, [], []⟩).newUserBadges := by
            rw [hacc]; exact hub
          rcases tryAwardFold_newUB_userId st.badges userId now (badgeRules st u) _
            ub hub' with h0 | h1
          · cases h0
          · exact h1
        refine List.mem_append_right _ ?_
        exact List.mem_map.mpr ⟨ub, List.mem_filter.mpr ⟨hub, by simp [huid]⟩, hubid⟩
    have hcore2 := checkAwardCore_of_skip ({ st with
        users := if acc.awarded.isEmpty then st.users
          else updateUser st.users userId
            (fun v => { v with xp := v.xp + acc.awarded.length * 50,
                               points := v.points + acc.awarded.length * 25 })
        userBadges := st.userBadges ++ acc.newUserBadges } : BState) userId now2
      { u with xp := u.xp + acc.awarded.length * 50,
               points := u.points + acc.awarded.length * 25 } hcond2
    refine ⟨(checkAwardCore ({ st with
        users := if acc.awarded.isEmpty then st.users
          else updateUser st.users userId
            (fun v => { v with xp := v.xp + acc.awarded.length * 50,
                               points := v.points + acc.awarded.length * 25 })
        userBadges := st.userBadges ++ acc.newUserBadges } : BState) userId now2
      { u with xp := u.xp + acc.awarded.length * 50,
               points := u.points + acc.awarded.length * 25 }).2, ?_, ?_⟩
    · simp only [check_and_award_badges, hfind2]
      rw [hcore2]
    · rw [hcore2]

/-- C9: `check_and_award_badges` never inserts a catalog row (unlike the
milestone awarder), every badge it awards is an existing catalog row, and
when no catalog row bears any rule name the call still succeeds but awards
nothing: no join row, no XP or points, the store is returned unchanged. -/
theorem check_and_award_badges_needs_catalog (st : BState) (userId now : Nat)
    (u : User) (hu : findUser st.users userId = some u) :
    ∃ st2 r, check_and_award_badges st userId now = some (st2, r) ∧
      st2.badges = st.badges ∧
      (∀ bb ∈ r.newBadges, bb ∈ st.badges) ∧
      ((∀ b ∈ st.badges, b.name ∉ ruleNames) → r.newBadges = [] ∧ st2 = st) := by
  obtain ⟨acc, hacc⟩ : ∃ acc, (badgeRules st u).foldl (try_award st.badges userId now)
      ⟨((st.userBadges.filter (fun ub => ub.userId == userId)).map
        (fun ub => ub.badgeId)).dedup, [], []⟩ = acc := ⟨_, rfl⟩
  have hcore : checkAwardCore st userId now u =
      ({ st with
          users := if acc.awarded.isEmpty then st.users
            else updateUser st.users userId
              (fun v => { v with xp := v.xp + acc.awarded.length * 50,
                                 points := v.points + acc.awarded.length * 25 })
          userBadges := st.userBadges ++ acc.newUserBadges },
        ⟨acc.awarded, acc.existing.length,
          if acc.awarded.isEmpty then 0 else acc.awarded.length * 50⟩) := by
    simp only [checkAwardCore]
    rw [hacc]
  have heq : check_and_award_badges st userId now =
      some (checkAwardCore st userId now u) := by
    simp only [check_and_award_badges, hu]
  refine ⟨_, _, heq.trans (congrArg some hcore), rfl, ?_, ?_⟩
  · intro bb hbb
    have hbb' : bb ∈ acc.awarded := hbb
    rw [← hacc] at hbb'
    rcases tryAwardFold_awarded_source st.badges userId now (badgeRules st u) _ bb hbb'
      with h0 | h1
    · cases h0
    · exact h1
  · intro habs
    have hcond : ∀ r ∈ badgeRules st u, r.2 = true →
        ∀ b, findBadgeByName st.badges r.1 = some b →
          b.id ∈ ((st.userBadges.filter (fun ub => ub.userId == userId)).map
            (fun ub => ub.badgeId)).dedup := by
      intro r hr _ b hfind
      exfalso
      have hbmem : b ∈ st.badges := List.mem_of_find?_eq_some hfind
      have hbname : b.name = r.1 := by simpa using List.find?_some hfind
      apply habs b hbmem
      rw [hbname]
      have hnames : (badgeRules st u).map (fun x => x.1) = ruleNames := rfl
      exact hnames ▸ List.mem_map_of_mem _ hr
    have hskip : acc = ⟨((st.userBadges.filter (fun ub => ub.userId == userId)).map
        (fun ub => ub.badgeId)).dedup, [], []⟩ := by
      rw [← hacc]
      exact tryAwardFold_skip st.badges userId now (badgeRules st u) _ hcond
    constructor
    · show acc.awarded = []
      rw [hskip]
    · show ({ st with
          users := if acc.awarded.isEmpty then st.users
            else updateUser st.users userId
              (fun v => { v with xp := v.xp + acc.awarded.length * 50,
                                 points := v.points + acc.awarded.length * 25 })
          userBadges := st.userBadges ++ acc.newUserBadges } : BState) = st
      rw [hskip]
      simp

/-- C8 (witness): the 7-day-streak user with the Week Warrior badge in the
catalog: the first call awards badges with a 50-per-badge XP bonus and
25-per-badge points, the second call awards nothing. -/
theorem check_and_award_badges_idempotent_witness :
    ∃ st2 r, check_and_award_badges bStateC8 1 3 = some (st2, r) ∧
      r.xpBonus = r.newBadges.length * 50 ∧
      findUser st2.users 1 =
        some { { mkUser 1 0 with streakDays := 7 } with
          xp := 0 + r.newBadges.length * 50, points := 0 + r.newBadges.length * 25 } ∧
      ∃ r2, check_and_award_badges st2 1 4 = some (st2, r2) ∧ r2.newBadges = [] :=
  check_and_award_badges_idempotent bStateC8 1 3 4 { mkUser 1 0 with streakDays := 7 }
    (by rfl)

/-- C9 (witness): same user against an empty catalog — the call succeeds and
changes nothing. -/
theorem check_and_award_badges_needs_catalog_witness :
    ∃ st2 r, check_and_award_badges bStateC9 1 3 = some (st2, r) ∧
      st2.badges = bStateC9.badges ∧
      (∀ bb ∈ r.newBadges, bb ∈ bStateC9.badges) ∧
      (r.newBadges = [] ∧ st2 = bStateC9) := by
  obtain ⟨st2, r, heq, hb, hsub, himp⟩ :=
    check_and_award_badges_needs_catalog bStateC9 1 3
      { mkUser 1 0 with streakDays := 7 } (by rfl)
  exact ⟨st2, r, heq, hb, hsub, himp (by intro b hbmem; cases hbmem)⟩
/-!
C4 — milestone awarder: per-milestone step lemmas.
-/

theorem award_milestone_skip (userId streak now : Nat) (st : GamState) (bs : List Bonus)
    (m : Milestone) (h : ¬ m.days ≤ streak) :
    award_milestone userId streak now (st, bs) m = (st, bs) := by
  unfold award_milestone
  rw [if_neg h]

theorem award_milestone_held (userId streak now : Nat) (st : GamState) (bs : List Bonus)
    (m : Milestone) (hle : m.days ≤ streak)
    (hheld : holdsBadgeNamed st userId m.badgeName = true) :
    award_milestone userId streak now (st, bs) m = (st, bs) := by
  unfold holdsBadgeNamed at hheld
  cases hfind : findBadgeByName st.badges m.badgeName with
  | none => simp only [hfind] at hheld; cases hheld
  | some b =>
    simp only [hfind] at hheld
    unfold award_milestone
    rw [if_pos hle]
    simp only [hfind, hheld]
    rfl

theorem award_milestone_award (userId streak now : Nat) (st : GamState) (bs : List Bonus)
    (m : Milestone) (u : User) (hle : m.days ≤ streak)
    (hheld : holdsBadgeNamed st userId m.badgeName = false)
    (hu : findUser st.users userId = some u) (hwf : WFGam st) :
    ∃ st2 bid,
      award_milestone userId streak now (st, bs) m = (st2, bs ++ [⟨m.days, m.xp, bid⟩]) ∧
      findUser st2.users userId = some { u with xp := u.xp + m.xp } ∧
      holdsBadgeNamed st2 userId m.badgeName = true ∧
      (∀ n, n ≠ m.badgeName → holdsBadgeNamed st2 userId n = holdsBadgeNamed st userId n) ∧
      WFGam st2 := by
  obtain ⟨hnodup, hbound, href⟩ := hwf
  unfold holdsBadgeNamed at hheld
  cases hfind : findBadgeByName st.badges m.badgeName with
  | some b =>
    simp only [hfind] at hheld
    have hbmem : b ∈ st.badges := List.mem_of_find?_eq_some hfind
    have hbname : b.name = m.badgeName := by simpa using List.find?_some hfind
    refine ⟨{ st with
        userBadges := st.userBadges ++ [⟨userId, b.id, now⟩]
        users := updateUser st.users userId (fun v => { v with xp := v.xp + m.xp }) },
      b.id, ?_, ?_, ?_, ?_, ?_⟩
    · unfold award_milestone
      rw [if_pos hle]
      simp only [hfind, hheld, hu]
      rfl
    · show findUser (updateUser st.users userId (fun v => { v with xp := v.xp + m.xp }))
        userId = some { u with xp := u.xp + m.xp }
      rw [findUser_updateUser _ _ _ (by intro v; rfl), hu]
      rfl
    · unfold holdsBadgeNamed
      show (match findBadgeByName st.badges m.badgeName with
            | some b2 => hasUserBadge (st.userBadges ++ [⟨userId, b.id, now⟩]) userId b2.id
            | none => false) = true
      rw [hfind]
      show hasUserBadge (st.userBadges ++ [⟨userId, b.id, now⟩]) userId b.id = true
      unfold hasUserBadge
      rw [List.any_append]
      simp
    · intro n hn
      unfold holdsBadgeNamed
      show (match findBadgeByName st.badges n with
            | some b2 => hasUserBadge (st.userBadges ++ [⟨userId, b.id, now⟩]) userId b2.id
            | none => false) =
        (match findBadgeByName st.badges n with
            | some b2 => hasUserBadge st.userBadges userId b2.id
            | none => false)
      cases hfind2 : findBadgeByName st.badges n with
      | none => rfl
      | some b2 =>
        have hb2mem : b2 ∈ st.badges := List.mem_of_find?_eq_some hfind2
        have hb2name : b2.name = n := by simpa using List.find?_some hfind2
        have hne : b ≠ b2 := by
          intro hcontra
          apply hn
          rw [← hb2name, ← hcontra, hbname]
        have hidne : b.id ≠ b2.id := by
          intro hcontra
          exact hne (List.inj_on_of_nodup_map hnodup hbmem hb2mem hcontra)
        show hasUserBadge (st.userBadges ++ [⟨userId, b.id, now⟩]) userId b2.id =
          hasUserBadge st.userBadges userId b2.id
        unfold hasUserBadge
        rw [List.any_append]
        have hfalse : List.any [(⟨userId, b.id, now⟩ : UserBadge)]
            (fun ub => ub.userId == userId && ub.badgeId == b2.id) = false := by
          simp [hidne]
        rw [hfalse, Bool.or_false]
    · refine ⟨hnodup, hbound, ?_⟩
      intro ub hub
      rcases List.mem_append.mp hub with h1 | h2
      · exact href ub h1
      · have hub2 : ub = ⟨userId, b.id, now⟩ := by simpa using h2
        rw [hub2]
        exact ⟨b, hbmem, rfl⟩
  | none =>
    have hnotheld : hasUserBadge st.userBadges userId st.nextBadgeId = false := by
      by_contra hcontra
      have htrue : hasUserBadge st.userBadges userId st.nextBadgeId = true := by
        revert hcontra
        cases hasUserBadge st.userBadges userId st.nextBadgeId <;> simp
      obtain ⟨ub, hub, hubpred⟩ := List.any_eq_true.mp htrue
      have hubid : ub.badgeId = st.nextBadgeId := by
        have := (Bool.and_eq_true _ _).mp hubpred
        simpa using this.2
      obtain ⟨bb, hbbmem, hbbid⟩ := href ub hub
      have hlt := hbound bb hbbmem
      rw [hbbid, hubid] at hlt
      exact lt_irrefl _ hlt
    refine ⟨{ st with
        badges := st.badges ++ [⟨st.nextBadgeId, m.badgeName⟩]
        nextBadgeId := st.nextBadgeId + 1
        userBadges := st.userBadges ++ [⟨userId, st.nextBadgeId, now⟩]
        users := updateUser st.users userId (fun v => { v with xp := v.xp + m.xp }) },
      st.nextBadgeId, ?_, ?_, ?_, ?_, ?_⟩
    · unfold award_milestone
      rw [if_pos hle]
      simp only [hfind, hnotheld, hu]
      rfl
    · show findUser (updateUser st.users userId (fun v => { v with xp := v.xp + m.xp }))
        userId = some { u with xp := u.xp + m.xp }
      rw [findUser_updateUser _ _ _ (by intro v; rfl), hu]
      rfl
    · have hfindnew : findBadgeByName
          (st.badges ++ [⟨st.nextBadgeId, m.badgeName⟩]) m.badgeName =
          some ⟨st.nextBadgeId, m.badgeName⟩ := by
        unfold findBadgeByName at hfind ⊢
        rw [List.find?_append, hfind]
        simp
      unfold holdsBadgeNamed
      show (match findBadgeByName (st.badges ++ [⟨st.nextBadgeId, m.badgeName⟩])
              m.badgeName with
            | some b2 => hasUserBadge (st.userBadges ++ [⟨userId, st.nextBadgeId, now⟩])
                userId b2.id
            | none => false) = true
      rw [hfindnew]
      show hasUserBadge (st.userBadges ++ [⟨userId, st.nextBadgeId, now⟩]) userId
        st.nextBadgeId = true
      unfold hasUserBadge
      rw [List.any_append]
      simp
    · intro n hn
      have hpred : ((⟨st.nextBadgeId, m.badgeName⟩ : Badge).name == n) = false := by
        refine beq_eq_false_iff_ne.mpr ?_
        exact fun h => hn h.symm
      have hfindn : findBadgeByName (st.badges ++ [⟨st.nextBadgeId, m.badgeName⟩]) n =
          findBadgeByName st.badges n := by
        unfold findBadgeByName
        rw [List.find?_append]
        have hsing : List.find? (fun b2 => b2.name == n)
            [(⟨st.nextBadgeId, m.badgeName⟩ : Badge)] = none := by
          rw [List.find?_cons_of_neg _ (by rw [hpred]; exact Bool.false_ne_true)]
          rfl
        rw [hsing, Option.or_none]
      unfold holdsBadgeNamed
      show (match findBadgeByName (st.badges ++ [⟨st.nextBadgeId, m.badgeName⟩]) n with
            | some b2 => hasUserBadge (st.userBadges ++ [⟨userId, st.nextBadgeId, now⟩])
                userId b2.id
            | none => false) =
        (match findBadgeByName st.badges n with
            | some b2 => hasUserBadge st.userBadges userId b2.id
            | none => false)
      rw [hfindn]
      cases hfindn2 : findBadgeByName st.badges n with
      | none => rfl
      | some b2 =>
        have hb2mem : b2 ∈ st.badges := List.mem_of_find?_eq_some hfindn2
        have hb2lt : b2.id < st.nextBadgeId := hbound b2 hb2mem
        show hasUserBadge (st.userBadges ++ [⟨userId, st.nextBadgeId, now⟩]) userId b2.id =
          hasUserBadge st.userBadges userId b2.id
        unfold hasUserBadge
        rw [List.any_append]
        have hidne : st.nextBadgeId ≠ b2.id := Ne.symm (Nat.ne_of_lt hb2lt)
        have hfalse : List.any [(⟨userId, st.nextBadgeId, now⟩ : UserBadge)]
            (fun ub => ub.userId == userId && ub.badgeId == b2.id) = false := by
          simp [hidne]
        rw [hfalse, Bool.or_false]
    · refine ⟨?_, ?_, ?_⟩
      · rw [List.map_append, List.nodup_append]
        refine ⟨hnodup, by simp, ?_⟩
        intro a ha hb
        obtain ⟨bb, hbbmem, hbbid⟩ := List.mem_map.mp ha
        have hlt : a < st.nextBadgeId := hbbid ▸ hbound bb hbbmem
        have ha2 : a = st.nextBadgeId := by simpa using hb
        rw [ha2] at hlt
        exact lt_irrefl _ hlt
      · intro bb hbb
        rcases List.mem_append.mp hbb with h1 | h2
        · exact Nat.lt_succ_of_lt (hbound bb h1)
        · have hbb2 : bb = ⟨st.nextBadgeId, m.badgeName⟩ := by simpa using h2
          rw [hbb2]
          exact Nat.lt_succ_self _
      · intro ub hub
        rcases List.mem_append.mp hub with h1 | h2
        · obtain ⟨bb, hbbmem, hbbid⟩ := href ub h1
          exact ⟨bb, List.mem_append_left _ hbbmem, hbbid⟩
        · have hub2 : ub = ⟨userId, st.nextBadgeId, now⟩ := by simpa using h2
          rw [hub2]
          exact ⟨⟨st.nextBadgeId, m.badgeName⟩, List.mem_append_right _ (by simp), rfl⟩

theorem awardMilestones_fold_spec (userId streak now : Nat) (ms : List Milestone) :
    ∀ (st : GamState) (bs : List Bonus) (u : User),
      WFGam st → findUser st.users userId = some u →
      ms.Pairwise (fun a b => a.badgeName ≠ b.badgeName) →
      ∃ st2 newBs,
        ms.foldl (award_milestone userId streak now) (st, bs) = (st2, bs ++ newBs) ∧
        newBs.map (fun b => (b.days, b.xpAwarded)) =
          (ms.filter (fun m => decide (m.days ≤ streak) &&
            !holdsBadgeNamed st userId m.badgeName)).map (fun m => (m.days, m.xp)) ∧
        findUser st2.users userId = some { u with xp := u.xp +
          (((ms.filter (fun m => decide (m.days ≤ streak) &&
            !holdsBadgeNamed st userId m.badgeName)).map (fun m => m.xp)).sum) } ∧
        WFGam st2 ∧
        (∀ n, n ∉ ms.map (fun m => m.badgeName) →
          holdsBadgeNamed st2 userId n = holdsBadgeNamed st userId n) ∧
        (∀ m ∈ ms, m.days ≤ streak → holdsBadgeNamed st2 userId m.badgeName = true) ∧
        (∀ m ∈ ms, ¬ m.days ≤ streak →
          holdsBadgeNamed st2 userId m.badgeName = holdsBadgeNamed st userId m.badgeName) ∧
        (newBs = [] → st2 = st) := by
  induction ms with
  | nil =>
    intro st bs u hwf hu _
    exact ⟨st, [], by rw [List.append_nil]; rfl, rfl, hu, hwf, fun n _ => rfl,
      fun m hm => absurd hm (List.not_mem_nil m),
      fun m hm => absurd hm (List.not_mem_nil m), fun _ => rfl⟩
  | cons m ms ih =>
    intro st bs u hwf hu hpair
    obtain ⟨hhead, htail⟩ := List.pairwise_cons.mp hpair
    have hnotmem : m.badgeName ∉ ms.map (fun m2 => m2.badgeName) := by
      intro hmem
      obtain ⟨m2, hm2, hm2eq⟩ := List.mem_map.mp hmem
      exact hhead m2 hm2 hm2eq.symm
    rw [List.foldl_cons]
    by_cases hle : m.days ≤ streak
    · by_cases hheld : holdsBadgeNamed st userId m.badgeName = true
      · rw [award_milestone_held userId streak now st bs m hle hheld]
        obtain ⟨st2, newBs, heq, hmap, hxp, hwf2, hpres, hpos, hneg, hnil⟩ :=
          ih st bs u hwf hu htail
        have hfcons : (m :: ms).filter (fun m2 => decide (m2.days ≤ streak) &&
            !holdsBadgeNamed st userId m2.badgeName) =
            ms.filter (fun m2 => decide (m2.days ≤ streak) &&
              !holdsBadgeNamed st userId m2.badgeName) := by
          rw [List.filter_cons]
          simp [hheld]
        refine ⟨st2, newBs, heq, by rw [hfcons]; exact hmap,
          by rw [hfcons]; exact hxp, hwf2, ?_, ?_, ?_, hnil⟩
        · intro n hn
          exact hpres n
            (fun hmem => hn (by rw [List.map_cons]; exact List.mem_cons_of_mem _ hmem))
        · intro m2 hm2 hle2
          rcases List.mem_cons.mp hm2 with rfl | hm2tail
          · rw [hpres m2.badgeName hnotmem]
            exact hheld
          · exact hpos m2 hm2tail hle2
        · intro m2 hm2 hle2
          rcases List.mem_cons.mp hm2 with rfl | hm2tail
          · exact absurd hle hle2
          · exact hneg m2 hm2tail hle2
      · have hheldf : holdsBadgeNamed st userId m.badgeName = false := by
          revert hheld
          cases holdsBadgeNamed st userId m.badgeName <;> simp
        obtain ⟨st1, bid, hstep, hu1, hpos1, hpres1, hwf1⟩ :=
          award_milestone_award userId streak now st bs m u hle hheldf hu hwf
        rw [hstep]
        obtain ⟨st2, newBs, heq, hmap, hxp, hwf2, hpres, hpos, hneg, hnil⟩ :=
          ih st1 (bs ++ [⟨m.days, m.xp, bid⟩]) { u with xp := u.xp + m.xp } hwf1 hu1 htail
        have hfc : ms.filter (fun m2 => decide (m2.days ≤ streak) &&
            !holdsBadgeNamed st1 userId m2.badgeName) =
            ms.filter (fun m2 => decide (m2.days ≤ streak) &&
              !holdsBadgeNamed st userId m2.badgeName) := by
          apply List.filter_congr
          intro m2 hm2
          rw [hpres1 m2.badgeName (Ne.symm (hhead m2 hm2))]
        have hfcons : (m :: ms).filter (fun m2 => decide (m2.days ≤ streak) &&
            !holdsBadgeNamed st userId m2.badgeName) =
            m :: ms.filter (fun m2 => decide (m2.days ≤ streak) &&
              !holdsBadgeNamed st userId m2.badgeName) := by
          rw [List.filter_cons]
          simp [hle, hheldf]
        refine ⟨st2, ⟨m.days, m.xp, bid⟩ :: newBs, ?_, ?_, ?_, hwf2, ?_, ?_, ?_, ?_⟩
        · rw [heq, List.append_assoc]
          rfl
        · rw [hfc] at hmap
          rw [hfcons, List.map_cons, List.map_cons]
          exact congrArg (List.cons (m.days, m.xp)) hmap
        · rw [hfc] at hxp
          rw [hfcons, List.map_cons, List.sum_cons, ← Nat.add_assoc]
          exact hxp
        · intro n hn
          have hn2 : n ∉ ms.map (fun m2 => m2.badgeName) :=
            fun hmem => hn (by rw [List.map_cons]; exact List.mem_cons_of_mem _ hmem)
          have hnm : n ≠ m.badgeName :=
            fun hcontra => hn (by rw [List.map_cons, hcontra]; exact List.mem_cons_self _ _)
          rw [hpres n hn2, hpres1 n hnm]
        · intro m2 hm2 hle2
          rcases List.mem_cons.mp hm2 with rfl | hm2tail
          · rw [hpres m2.badgeName hnotmem]
            exact hpos1
          · exact hpos m2 hm2tail hle2
        · intro m2 hm2 hle2
          rcases List.mem_cons.mp hm2 with rfl | hm2tail
          · exact absurd hle hle2
          · rw [hneg m2 hm2tail hle2, hpres1 m2.badgeName (Ne.symm (hhead m2 hm2tail))]
        · intro hcontra
          exact absurd hcontra (List.cons_ne_nil _ _)
    · rw [award_milestone_skip userId streak now st bs m hle]
      obtain ⟨st2, newBs, heq, hmap, hxp, hwf2, hpres, hpos, hneg, hnil⟩ :=
        ih st bs u hwf hu htail
      have hfcons : (m :: ms).filter (fun m2 => decide (m2.days ≤ streak) &&
          !holdsBadgeNamed st userId m2.badgeName) =
          ms.filter (fun m2 => decide (m2.days ≤ streak) &&
            !holdsBadgeNamed st userId m2.badgeName) := by
        rw [List.filter_cons]
        simp [hle]
      refine ⟨st2, newBs, heq, by rw [hfcons]; exact hmap,
        by rw [hfcons]; exact hxp, hwf2, ?_, ?_, ?_, hnil⟩
      · intro n hn
        exact hpres n
          (fun hmem => hn (by rw [List.map_cons]; exact List.mem_cons_of_mem _ hmem))
      · intro m2 hm2 hle2
        rcases List.mem_cons.mp hm2 with rfl | hm2tail
        · exact absurd hle2 hle
        · exact hpos m2 hm2tail hle2
      · intro m2 hm2 hle2
        rcases List.mem_cons.mp hm2 with rfl | hm2tail
        · exact hpres m2.badgeName hnotmem
        · exact hneg m2 hm2tail hle2

/-- C4: on a well-formed store with the user present, `award_streak_bonus`
grants exactly the milestones among 7 → 50 XP, 30 → 200 XP, 100 → 500 XP
whose threshold is at most the streak and whose badge the user does not
already hold — the bonus list records exactly their (days, xp) pairs in
ascending order and the user's XP grows by their sum — and a repeated call
with the same streak value awards nothing further and leaves the store
unchanged.  In particular a jump to streak 45 with no prior streak badges
yields the 7- and 30-day badges and +250 XP but not the 100-day badge. -/
theorem award_streak_bonus_spec (st : GamState) (userId streak now now2 : Nat)
    (u : User) (hwf : WFGam st) (hu : findUser st.users userId = some u) :
    ∃ st2 bonuses,
      award_streak_bonus st userId streak now = (st2, bonuses) ∧
      bonuses.map (fun b => (b.days, b.xpAwarded)) =
        (milestones.filter (fun m => decide (m.days ≤ streak) &&
          !holdsBadgeNamed st userId m.badgeName)).map (fun m => (m.days, m.xp)) ∧
      findUser st2.users userId = some { u with xp := u.xp +
        (((milestones.filter (fun m => decide (m.days ≤ streak) &&
          !holdsBadgeNamed st userId m.badgeName)).map (fun m => m.xp)).sum) } ∧
      award_streak_bonus st2 userId streak now2 = (st2, []) := by
  obtain ⟨st2, newBs, heq, hmap, hxp, hwf2, hpres, hpos, hneg, hnil⟩ :=
    awardMilestones_fold_spec userId streak now milestones st [] u hwf hu (by decide)
  refine ⟨st2, newBs, by simpa using heq, hmap, hxp, ?_⟩
  obtain ⟨st3, newBs2, heq2, hmap2, hxp2, hwf3, hpres2, hpos2, hneg2, hnil2⟩ :=
    awardMilestones_fold_spec userId streak now2 milestones st2 []
      { u with xp := u.xp +
        (((milestones.filter (fun m => decide (m.days ≤ streak) &&
          !holdsBadgeNamed st userId m.badgeName)).map (fun m => m.xp)).sum) }
      hwf2 hxp (by decide)
  have hfe : milestones.filter (fun m => decide (m.days ≤ streak) &&
      !holdsBadgeNamed st2 userId m.badgeName) = [] := by
    rw [List.filter_eq_nil_iff]
    intro m hm
    by_cases hle : m.days ≤ streak
    · rw [hpos m hm hle]
      simp [hle]
    · simp [hle]
  rw [hfe] at hmap2
  have h0 : newBs2 = [] := by
    rcases newBs2 with _ | ⟨x, xs⟩
    · rfl
    · cases hmap2
  rw [h0] at heq2
  have h3 : st3 = st2 := hnil2 h0
  rw [h3] at heq2
  show milestones.foldl (award_milestone userId streak now2) (st2, []) = (st2, [])
  simpa using heq2

/-- C4 (witness): the streak-45 jump on a fresh store — exactly the 7-day and
30-day milestones are granted, XP rises by 250, and the call repeated at
streak 45 awards nothing. -/
theorem award_streak_bonus_spec_witness :
    ∃ st2 bonuses,
      award_streak_bonus gamStateC4 1 45 9 = (st2, bonuses) ∧
      bonuses.map (fun b => (b.days, b.xpAwarded)) = [(7, 50), (30, 200)] ∧
      findUser st2.users 1 = some { mkUser 1 0 with xp := 250 } ∧
      award_streak_bonus st2 1 45 10 = (st2, []) := by
  obtain ⟨st2, bonuses, heq, hmap, hxp, hrep⟩ :=
    award_streak_bonus_spec gamStateC4 1 45 9 10 (mkUser 1 0)
      ⟨List.nodup_nil, fun b hb => absurd hb (List.not_mem_nil b),
        fun ub hub => absurd hub (List.not_mem_nil ub)⟩ (by rfl)
  refine ⟨st2, bonuses, heq, ?_, ?_, hrep⟩
  · rw [hmap]
    rfl
  · rw [hxp]
    rfl

end LearnQuest
